import Mathlib

/-!
Verification of the Intelliproof credibility-propagation core
(`src/backend/ai_api.py`, models in `src/backend/ai_models.py`).

The two endpoints under study are `get_claim_credibility` (full-graph
propagation) and `get_node_credibility` together with `get_affected_nodes`
(selective propagation).  Python floats are modelled as rationals; the
squashing function `math.tanh` is an abstract parameter `sq : ℚ → ℚ` of every
definition that calls it (theorems that depend on properties of tanh state
them as hypotheses on `sq`, e.g. that its values lie in [-1, 1]).  Python
dictionaries keyed by node id are modelled as functions `String → Option ℚ`;
exceptions (`KeyError` from a missing dict key, `TypeError` from comparing a
float with `None`) are modelled with `Except`.
-/

namespace Intelliproof

/-- Python exceptions that the two endpoints can raise, plus the
`ValidationError` that the specification's error taxonomy promises (the code
never raises it; it is present so that claims about it can be stated). -/
inductive PyError where
  | keyError (k : String)
  | typeError
  | validationError
deriving DecidableEq

deriving instance DecidableEq for Except

/-- A Python dict mapping node ids to float scores: `none` means the key is
absent. -/
def ScoreMap : Type := String → Option ℚ

/-- The empty dict. -/
def ScoreMap.empty : ScoreMap := fun _ => none

/-- Dict update `m[k] = v`. -/
def ScoreMap.set (m : ScoreMap) (k : String) (v : ℚ) : ScoreMap :=
  fun s => if s = k then some v else m s

/-- Mirror of `ai_models.NodeModel`: `id`, optional `evidence` list and
optional per-node bounds.  The unused `text` and `type` fields are omitted;
crucially, the class declares NO `evidence_score` field. -/
structure NodeModel where
  id : String
  evidence : Option (List ℚ)
  evidence_min : Option ℚ
  evidence_max : Option ℚ
deriving DecidableEq

/-- Mirror of `ai_models.EdgeModel`: `weight` is `Optional[float]`. -/
structure EdgeModel where
  source : String
  target : String
  weight : Option ℚ
deriving DecidableEq

/-- Mirror of `ai_models.CredibilityPropagationRequest`.  `max_iterations` is
a Python `int`, hence `ℤ` (callers may send non-positive values; pydantic does
not constrain the field).  `evidence_min`/`evidence_max` are `Optional[float]`
with defaults 0.0 and 1.0, so an explicit JSON `null` makes them `none`. -/
structure CredibilityPropagationRequest where
  nodes : List NodeModel
  edges : List EdgeModel
  lambda_ : ℚ
  max_iterations : ℤ
  epsilon : ℚ
  evidence_min : Option ℚ
  evidence_max : Option ℚ

/-- Mirror of `ai_models.CredibilityPropagationResponse`. -/
structure CredibilityPropagationResponse where
  initial_evidence : ScoreMap
  iterations : List ScoreMap
  final_scores : ScoreMap

/-- Mirror of `ai_models.NodeCredibilityRequest`. -/
structure NodeCredibilityRequest where
  target_node_id : String
  nodes : List NodeModel
  edges : List EdgeModel
  lambda_ : ℚ
  max_iterations : ℤ
  epsilon : ℚ
  evidence_min : Option ℚ
  evidence_max : Option ℚ

/-- Mirror of `ai_models.NodeCredibilityResponse`.  Python returns
`affected_nodes` as `list(<set>)` whose order is unspecified, so the field is
modelled as a `Finset`. -/
structure NodeCredibilityResponse where
  target_node_id : String
  affected_nodes : Finset String
  initial_evidence : ScoreMap
  iterations : List ScoreMap
  final_scores : ScoreMap

/-- `getattr(node, "evidence_score", None)` in `get_claim_credibility`
(ai_api.py line 110): `NodeModel` declares no `evidence_score` attribute and
pydantic discards undeclared request fields, so the lookup always yields the
`getattr` default `None`. -/
def getattrEvidenceScore (_n : NodeModel) : Option ℚ := none

/-- `max(min(score, max_val), min_val)` (ai_api.py line 115). -/
def clampQ (x lo hi : ℚ) : ℚ := max (min x hi) lo

/-- Step 1 of `get_claim_credibility` (lines 106-117): build the dict `E` of
intrinsic scores.  `min_val`/`max_val` fall back to -1.0/1.0 when the request
field is `None`. -/
def fullEAux (emin emax : Option ℚ) (E : ScoreMap) : List NodeModel → ScoreMap
  | [] => E
  | n :: ns =>
      match getattrEvidenceScore n with
      | none => fullEAux emin emax (E.set n.id 0) ns
      | some score =>
          fullEAux emin emax (E.set n.id (clampQ score (emin.getD (-1)) (emax.getD 1))) ns

/-- The dict `E` of `get_claim_credibility`. -/
def fullE (data : CredibilityPropagationRequest) : ScoreMap :=
  fullEAux data.evidence_min data.evidence_max ScoreMap.empty data.nodes

/-- The dict comprehension `c_prev = {node.id: E[node.id] for node in nodes}`
(full endpoint line 125) and `c = {node.id: E[node.id] for node in
affected_nodes}` (selective endpoint line 1748).  The `getD 0` never fires:
`E` holds a key for every node of the list. -/
def initScoresAux (E : ScoreMap) (c : ScoreMap) : List NodeModel → ScoreMap
  | [] => c
  | n :: ns => initScoresAux E (c.set n.id ((E n.id).getD 0)) ns

/-- Initial credibility scores `c^(0)`. -/
def initScores (nodes : List NodeModel) (E : ScoreMap) : ScoreMap :=
  initScoresAux E ScoreMap.empty nodes

/-- A Python dict mapping a node id to its list of edges. -/
def IncomingMap : Type := String → Option (List EdgeModel)

/-- The comprehension `incoming_edges = {node.id: [] for node in data.nodes}`
(full endpoint line 147). -/
def initIncoming : List NodeModel → IncomingMap
  | [] => fun _ => none
  | n :: ns => fun s => if s = n.id then some [] else initIncoming ns s

/-- The loop `for edge in data.edges: incoming_edges[edge.source].append(edge)`
(full endpoint lines 148-151).  The code stores each edge under its SOURCE id
("Reverse source and target to match graph visualization"), so an edge
`source -> target` influences its source.  A dict access with a missing key
raises `KeyError`. -/
def buildIncomingAux (m : IncomingMap) : List EdgeModel → Except PyError IncomingMap
  | [] => .ok m
  | e :: es =>
      match m e.source with
      | none => .error (.keyError e.source)
      | some l =>
          buildIncomingAux (fun s => if s = e.source then some (l ++ [e]) else m s) es

/-- The `incoming_edges` dict of the full endpoint. -/
def buildIncoming (nodes : List NodeModel) (edges : List EdgeModel) :
    Except PyError IncomingMap :=
  buildIncomingAux (initIncoming nodes) edges

/-- One edge's contribution in the full endpoint (lines 182-209): effective
weight `w` (missing weight defaults to 1.0), `strength = abs(w)`; a support
edge (`w > 0`) contributes `strength * source_score`, an attack edge
contributes `-strength * abs(source_score)`. -/
def fullEdgeContribution (w s : ℚ) : ℚ :=
  if 0 < w then |w| * s else -(|w| * |s|)

/-- The edge loop of the full endpoint for one node (lines 173-217):
accumulates `total_edge_contribution` and whether some contribution has
magnitude above the 0.001 "meaningful" threshold.  A weight of exactly 0.0 is
skipped before the `c_prev[edge.target]` access; for other edges a missing
`edge.target` key raises `KeyError`. -/
def fullContribFold (c_prev : ScoreMap) :
    List EdgeModel → ℚ × Bool → Except PyError (ℚ × Bool)
  | [], acc => .ok acc
  | e :: es, acc =>
      if e.weight = some 0 then fullContribFold c_prev es acc
      else
        match c_prev e.target with
        | none => .error (.keyError e.target)
        | some s =>
            let contribution := fullEdgeContribution (e.weight.getD 1) s
            fullContribFold c_prev es
              (acc.1 + contribution, acc.2 || decide ((1 : ℚ)/1000 < |contribution|))

/-- The update of one node inside an iteration of the full endpoint (lines
167-230).  The guard `node_id not in source_nodes and incoming_edges[node_id]`
is equivalent to the node's edge list being nonempty (`source_nodes` is
exactly the set of ids whose list is empty).  With at least one meaningful
contribution the node gets `sq(lambda * E[id] + total)`; otherwise it is
re-assigned its previous score. -/
def fullNodeUpdate (sq : ℚ → ℚ) (lam : ℚ) (E c_prev : ScoreMap)
    (incoming : IncomingMap) (c_new : ScoreMap) (id : String) :
    Except PyError ScoreMap :=
  if (incoming id).getD [] = [] then .ok c_new
  else
    match fullContribFold c_prev ((incoming id).getD []) (0, false) with
    | .error e => .error e
    | .ok acc =>
        if acc.2 then .ok (c_new.set id (sq (lam * (E id).getD 0 + acc.1)))
        else .ok (c_new.set id ((c_prev id).getD 0))

/-- The `for node_id in incoming_edges` loop of one iteration (lines 164-230):
`c_new` starts as a copy of `c_prev` and each node is updated in turn, always
reading sources from `c_prev`. -/
def fullStepNodes (sq : ℚ → ℚ) (lam : ℚ) (E c_prev : ScoreMap)
    (incoming : IncomingMap) : List String → ScoreMap → Except PyError ScoreMap
  | [], c_new => .ok c_new
  | id :: ids, c_new =>
      match fullNodeUpdate sq lam E c_prev incoming c_new id with
      | .error e => .error e
      | .ok c' => fullStepNodes sq lam E c_prev incoming ids c'

/-- `max(abs(c_new[nid] - c_prev[nid]) for nid in c_new)` (line 237); the
values are absolute, so folding `max` from 0 agrees with Python's `max` on a
nonempty key list. -/
def maxChange (ids : List String) (c_new c_prev : ScoreMap) : ℚ :=
  ids.foldl (fun acc id => max acc |(c_new id).getD 0 - (c_prev id).getD 0|) 0

/-- The `for iteration in range(data.max_iterations)` loop (lines 162-241):
run one step, append `c_new` to the trace, stop when the key list is empty
(`not c_new`) or the maximal change is below `epsilon`, else continue with
`c_prev = c_new`. -/
def fullLoop (sq : ℚ → ℚ) (lam eps : ℚ) (E : ScoreMap) (incoming : IncomingMap)
    (ids : List String) : ℕ → ScoreMap → List ScoreMap →
    Except PyError (List ScoreMap)
  | 0, _, trace => .ok trace
  | fuel + 1, c_prev, trace =>
      match fullStepNodes sq lam E c_prev incoming ids c_prev with
      | .error e => .error e
      | .ok c_new =>
          if ids = [] ∨ maxChange ids c_new c_prev < eps then .ok (trace ++ [c_new])
          else fullLoop sq lam eps E incoming ids fuel c_new (trace ++ [c_new])

/-- Python `dict` key iteration visits distinct keys in first-insertion
order; this mirrors that for the `incoming_edges` dict, whose keys are the
node ids. -/
def pyDedupAux (acc : List String) : List String → List String
  | [] => acc
  | x :: xs => if x ∈ acc then pyDedupAux acc xs else pyDedupAux (acc ++ [x]) xs

/-- Distinct node ids in first-occurrence order. -/
def pyDedup (l : List String) : List String := pyDedupAux [] l

/-- The id list of a node list. -/
def idsOf (nodes : List NodeModel) : List String := nodes.map NodeModel.id

/-- The keys of the `incoming_edges` dict, i.e. the distinct node ids in
first-insertion order. -/
def fullKeyIds (data : CredibilityPropagationRequest) : List String :=
  pyDedup (idsOf data.nodes)

/-- The initial credibility dict `c^(0)` of the full endpoint. -/
def fullC0 (data : CredibilityPropagationRequest) : ScoreMap :=
  initScores data.nodes (fullE data)

/-- The general (non-early-return) path of `get_claim_credibility`: build
`incoming_edges`, run the iteration loop starting from the trace
`[c^(0)]`, and return `iterations[-1]` as `final_scores`. -/
def fullGeneralPath (sq : ℚ → ℚ) (data : CredibilityPropagationRequest) :
    Except PyError CredibilityPropagationResponse :=
  match buildIncoming data.nodes data.edges with
  | .error e => .error e
  | .ok incoming =>
      match fullLoop sq data.lambda_ data.epsilon (fullE data) incoming
          (fullKeyIds data) data.max_iterations.toNat (fullC0 data) [fullC0 data] with
      | .error e => .error e
      | .ok trace => .ok ⟨fullE data, trace, trace.getLastD (fullC0 data)⟩

/-- `POST /api/ai/get-claim-credibility` (ai_api.py lines 79-252), with the
squashing function abstracted as `sq` (the code uses `math.tanh`).  An empty
node set and the single-node/zero-edge case return
`(E, [c^(0)], c^(0)})` without entering the loop. -/
def get_claim_credibility (sq : ℚ → ℚ) (data : CredibilityPropagationRequest) :
    Except PyError CredibilityPropagationResponse :=
  if data.nodes.length = 0 then .ok ⟨fullE data, [fullC0 data], fullC0 data⟩
  else if data.nodes.length = 1 ∧ data.edges.length = 0 then
    .ok ⟨fullE data, [fullC0 data], fullC0 data⟩
  else fullGeneralPath sq data

/-- The dict `dependency_graph` of `get_affected_nodes` (lines 1648-1652):
maps each id to the sources of the edges pointing at it, in edge order. -/
def depGraphAux (g : String → List String) : List EdgeModel → String → List String
  | [] => g
  | e :: es =>
      depGraphAux (fun s => if s = e.target then g e.target ++ [e.source] else g s) es

/-- `dependency_graph[target] = [sources of edges into target]`. -/
def dependencyGraph (edges : List EdgeModel) : String → List String :=
  depGraphAux (fun _ => []) edges

/-- Processing the dependants of one visited node (lines 1662-1667): each id
not yet in the affected set is added to both the worklist and the set. -/
def bfsPush (p : List String × Finset String) :
    List String → List String × Finset String
  | [] => p
  | m :: ms =>
      if m ∈ p.2 then bfsPush p ms
      else bfsPush (p.1 ++ [m], insert m p.2) ms

/-- The worklist loop of `get_affected_nodes` (lines 1657-1667).  The Python
code pops an arbitrary element of the `nodes_to_check` set; the model pops the
head of a worklist.  The fuel `edges.length + 1` bounds the number of pops:
beyond the initial target, only previously-unseen edge sources are ever
pushed. -/
def bfs (dg : String → List String) : ℕ → List String → Finset String → Finset String
  | 0, _, affected => affected
  | _ + 1, [], affected => affected
  | fuel + 1, cur :: rest, affected =>
      let p := bfsPush (rest, affected) (dg cur)
      bfs dg fuel p.1 p.2

/-- `get_affected_nodes` (ai_api.py lines 1616-1670).  The node list is only
used for the `all_node_ids` set, which the code computes and never uses, so
the parameter is unused here as well. -/
def get_affected_nodes (target : String) (_nodes : List NodeModel)
    (edges : List EdgeModel) : Finset String :=
  bfs (dependencyGraph edges) (edges.length + 1) [target] {target}

/-- Clamping one evidence value in the selective endpoint (lines 1714-1716):
`max(min(ev, max_val), min_val)`.  In Python 3 comparing a float with `None`
raises `TypeError`, and `min(ev, max_val)` is evaluated first, so a missing
`max_val` raises before a missing `min_val` does. -/
def clampEv (x : ℚ) (lo hi : Option ℚ) : Except PyError ℚ :=
  match hi with
  | none => .error .typeError
  | some h =>
      match lo with
      | none => .error .typeError
      | some l => .ok (max (min x h) l)

/-- The list comprehension `[max(min(ev, max_val), min_val) for ev in
evidence]`: clamps each value in order, raising at the first failure. -/
def clampList (lo hi : Option ℚ) : List ℚ → Except PyError (List ℚ)
  | [] => .ok []
  | x :: xs =>
      match clampEv x lo hi with
      | .error e => .error e
      | .ok y =>
          match clampList lo hi xs with
          | .error e => .error e
          | .ok ys => .ok (y :: ys)

/-- `node.evidence_min if node.evidence_min is not None else data.evidence_min`
(line 1711). -/
def effMin (reqMin : Option ℚ) (n : NodeModel) : Option ℚ :=
  match n.evidence_min with
  | some v => some v
  | none => reqMin

/-- The per-node `max_val` (line 1712). -/
def effMax (reqMax : Option ℚ) (n : NodeModel) : Option ℚ :=
  match n.evidence_max with
  | some v => some v
  | none => reqMax

/-- One node's intrinsic score in the selective endpoint (lines 1702-1721):
`E_i` starts at 0.0 and, when the node's evidence list (`node.evidence or []`)
is nonempty, becomes the arithmetic mean of the clamped values. -/
def nodeEvidenceScore (reqMin reqMax : Option ℚ) (n : NodeModel) :
    Except PyError ℚ :=
  if n.evidence.getD [] = [] then .ok 0
  else
    match clampList (effMin reqMin n) (effMax reqMax n) (n.evidence.getD []) with
    | .error e => .error e
    | .ok clamped =>
        if 0 < clamped.length then .ok (clamped.sum / clamped.length) else .ok 0

/-- Step 3 of `get_node_credibility` (lines 1701-1721): the dict `E` over the
affected nodes. -/
def selEAux (reqMin reqMax : Option ℚ) (E : ScoreMap) :
    List NodeModel → Except PyError ScoreMap
  | [] => .ok E
  | n :: ns =>
      match nodeEvidenceScore reqMin reqMax n with
      | .error e => .error e
      | .ok v => selEAux reqMin reqMax (E.set n.id v) ns

/-- The selective endpoint's incoming-edge dict: `String` to list of
`(edge.target, edge.weight or 1.0)` pairs.  Note `edge.weight or 1.0` maps
BOTH a missing weight and a 0.0 weight to 1.0 (0.0 is falsy in Python). -/
def SelIncoming : Type := String → Option (List (String × ℚ))

/-- `edge.weight or 1.0` (line 1756). -/
def selEdgeWeight (w : Option ℚ) : ℚ :=
  match w with
  | none => 1
  | some x => if x = 0 then 1 else x

/-- Step 5 of `get_node_credibility` (lines 1752-1756).  The code checks
`if edge.target not in incoming_edges` but then initialises and appends at
`incoming_edges[edge.source]` — when the check fires it RESETS the source's
list to `[]`; when it does not fire and the source key is absent, the append
raises `KeyError`. -/
def selIncomingAux (m : SelIncoming) : List EdgeModel → Except PyError SelIncoming
  | [] => .ok m
  | e :: es =>
      let m1 : SelIncoming :=
        if (m e.target).isNone then fun s => if s = e.source then some [] else m s
        else m
      match m1 e.source with
      | none => .error (.keyError e.source)
      | some l =>
          selIncomingAux
            (fun s =>
              if s = e.source then some (l ++ [(e.target, selEdgeWeight e.weight)])
              else m1 s) es

/-- The `incoming_edges` dict of the selective endpoint. -/
def selIncoming (edges : List EdgeModel) : Except PyError SelIncoming :=
  selIncomingAux (fun _ => none) edges

/-- One edge's contribution in the selective endpoint (line 1781):
`weight * c[source_id]`, with no case split on the weight's sign. -/
def selContribution (w s : ℚ) : ℚ := w * s

/-- The contribution of one stored `(source_id, weight)` pair in the selective
endpoint: 0 when `source_id` is not a key of `c` (the edge is skipped), else
`weight * c[source_id]`. -/
def selContribOf (c : ScoreMap) (p : String × ℚ) : ℚ :=
  match c p.1 with
  | none => 0
  | some s => selContribution p.2 s

/-- The contribution loop for one node (lines 1778-1783): edges from ids not
in `c` are skipped (`if source_id in c`). -/
def selZFold (c : ScoreMap) (z : ℚ) : List (String × ℚ) → ℚ
  | [] => z
  | (src, w) :: rest =>
      match c src with
      | none => selZFold c z rest
      | some s => selZFold c (z + selContribution w s) rest

/-- `Z` for one node in the selective endpoint (lines 1774-1783): the
`lambda * E[id]` term is ALWAYS applied, then each incoming edge adds
`weight * c[source]`. -/
def selNodeZ (lam : ℚ) (E c : ScoreMap) (incoming : SelIncoming) (id : String) : ℚ :=
  match incoming id with
  | none => lam * (E id).getD 0
  | some l => selZFold c (lam * (E id).getD 0) l

/-- One iteration of the selective endpoint (lines 1767-1790): `c_new` starts
EMPTY and every affected node is assigned `sq Z`; `max_change` tracks the
largest per-node change. -/
def selStepAux (sq : ℚ → ℚ) (lam : ℚ) (E c : ScoreMap) (incoming : SelIncoming) :
    List NodeModel → ScoreMap → ℚ → ScoreMap × ℚ
  | [], c_new, maxCh => (c_new, maxCh)
  | n :: ns, c_new, maxCh =>
      let v := sq (selNodeZ lam E c incoming n.id)
      selStepAux sq lam E c incoming ns (c_new.set n.id v)
        (max maxCh |v - (c n.id).getD 0|)

/-- One full `while` body of the selective endpoint. -/
def selStep (sq : ℚ → ℚ) (lam : ℚ) (E : ScoreMap) (incoming : SelIncoming)
    (ans : List NodeModel) (c : ScoreMap) : ScoreMap × ℚ :=
  selStepAux sq lam E c incoming ans ScoreMap.empty 0

/-- The `while not converged and iteration_count < max_iterations` loop
(lines 1760-1801): append each `c_new` to the trace and stop once
`max_change < epsilon`. -/
def selLoop (sq : ℚ → ℚ) (lam eps : ℚ) (E : ScoreMap) (incoming : SelIncoming)
    (ans : List NodeModel) : ℕ → ScoreMap → List ScoreMap →
    List ScoreMap × ScoreMap
  | 0, c, trace => (trace, c)
  | fuel + 1, c, trace =>
      let p := selStep sq lam E incoming ans c
      if p.2 < eps then (trace ++ [p.1], p.1)
      else selLoop sq lam eps E incoming ans fuel p.1 (trace ++ [p.1])

/-- Step 1 of `get_node_credibility`: the affected id set. -/
def selAffectedIds (data : NodeCredibilityRequest) : Finset String :=
  get_affected_nodes data.target_node_id data.nodes data.edges

/-- Step 2 of `get_node_credibility` (line 1695): the affected nodes, in node
list order. -/
def selAffectedNodes (data : NodeCredibilityRequest) : List NodeModel :=
  data.nodes.filter (fun n => decide (n.id ∈ selAffectedIds data))

/-- Step 2 of `get_node_credibility` (line 1696): the edges with both
endpoints affected. -/
def selAffectedEdges (data : NodeCredibilityRequest) : List EdgeModel :=
  data.edges.filter
    (fun e => decide (e.source ∈ selAffectedIds data) && decide (e.target ∈ selAffectedIds data))

/-- The `is_isolated` test of `get_node_credibility` (lines 1723-1730): the
target node is looked up among the affected nodes and, when found, declared
isolated iff it has no outgoing edge in the FULL edge list. -/
def selIsolated (data : NodeCredibilityRequest) : Bool :=
  match (selAffectedNodes data).find? (fun n => n.id == data.target_node_id) with
  | some _ => ! data.edges.any (fun e => e.source == data.target_node_id)
  | none => false

/-- `POST /api/ai/get-node-credibility` (ai_api.py lines 1674-1815), with the
squashing function abstracted as `sq`.  When the target node is found among
the affected nodes and has no outgoing edge (`is_isolated`), the endpoint
returns `affected_nodes = [target]` and the single map `target -> E[target]`
without iterating; otherwise it runs the loop over the affected subgraph. -/
def get_node_credibility (sq : ℚ → ℚ) (data : NodeCredibilityRequest) :
    Except PyError NodeCredibilityResponse :=
  match selEAux data.evidence_min data.evidence_max ScoreMap.empty
      (selAffectedNodes data) with
  | .error e => .error e
  | .ok E =>
      match selIsolated data with
      | true =>
        let m := ScoreMap.empty.set data.target_node_id ((E data.target_node_id).getD 0)
        .ok ⟨data.target_node_id, {data.target_node_id}, m, [m], m⟩
      | false =>
        let c0 := initScores (selAffectedNodes data) E
        match selIncoming (selAffectedEdges data) with
        | .error e => .error e
        | .ok incoming =>
            let p := selLoop sq data.lambda_ data.epsilon E incoming
              (selAffectedNodes data) data.max_iterations.toNat c0 [c0]
            .ok ⟨data.target_node_id, selAffectedIds data, E, p.1, p.2⟩

/-- The full-graph request carrying the same graph and parameters as a
selective request ("running the full-graph propagation on the entire original
graph"). -/
def toFullRequest (data : NodeCredibilityRequest) : CredibilityPropagationRequest :=
  ⟨data.nodes, data.edges, data.lambda_, data.max_iterations, data.epsilon,
    data.evidence_min, data.evidence_max⟩

/-- The edge set with the edges of weight exactly 0.0 removed. -/
def dropZeroEdges (edges : List EdgeModel) : List EdgeModel :=
  edges.filter (fun e => decide (e.weight ≠ some 0))

/-- A full-graph request with the zero-weight edges removed. -/
def dropZeroRequest (data : CredibilityPropagationRequest) :
    CredibilityPropagationRequest :=
  ⟨data.nodes, dropZeroEdges data.edges, data.lambda_, data.max_iterations,
    data.epsilon, data.evidence_min, data.evidence_max⟩

/-- A selective request with the zero-weight edges removed. -/
def dropZeroSelRequest (data : NodeCredibilityRequest) : NodeCredibilityRequest :=
  ⟨data.target_node_id, data.nodes, dropZeroEdges data.edges, data.lambda_,
    data.max_iterations, data.epsilon, data.evidence_min, data.evidence_max⟩

/-- A squashing function used to instantiate `sq` in concrete computations:
any function may stand in for `tanh` when the computation under scrutiny never
reaches a `sq` call or only needs its boundedness. -/
def sqZero : ℚ → ℚ := fun _ => 0

/-- Concrete node "A" with no evidence. -/
def nodeA : NodeModel := ⟨"A", none, none, none⟩

/-- Concrete node "B" with one evidence value 1. -/
def nodeB : NodeModel := ⟨"B", some [1], none, none⟩

/-- Concrete node "t" with the spec's example evidence values 0.6 and 0.8. -/
def nodeT : NodeModel := ⟨"t", some [3/5, 4/5], none, none⟩

/-- Concrete node "C" whose unclamped evidence value 3 escapes `[-1, 1]`. -/
def nodeC3 : NodeModel := ⟨"C", some [3], none, none⟩

/-- Selective request: nodes A and B, edge `A -> B` of weight 1 (A depends on
B), target B. -/
def selReq1 : NodeCredibilityRequest :=
  ⟨"B", [nodeA, nodeB], [⟨"A", "B", some 1⟩], 1/2, 100, 1/1000000, some 0, some 1⟩

/-- Selective request: nodes A and B, one zero-weight edge `B -> A`,
target B, one iteration allowed. -/
def selReqZeroEdge : NodeCredibilityRequest :=
  ⟨"B", [nodeA, nodeB], [⟨"B", "A", some 0⟩], 1/2, 1, 1/1000000, some 0, some 1⟩

/-- The same selective request with its only (zero-weight) edge removed. -/
def selReqZeroRemoved : NodeCredibilityRequest :=
  ⟨"B", [nodeA, nodeB], [], 1/2, 1, 1/1000000, some 0, some 1⟩

/-- Selective request: single node C with evidence value 3 and caller-supplied
bounds [0, 5], target C. -/
def selReqWide : NodeCredibilityRequest :=
  ⟨"C", [nodeC3], [], 1/2, 100, 1/1000000, some 0, some 5⟩

/-- Selective request: single node B with evidence, graph-wide bounds
explicitly null. -/
def selReqNullBounds : NodeCredibilityRequest :=
  ⟨"B", [nodeB], [], 1/2, 100, 1/1000000, none, none⟩

/-- Full request: single node B, no edges, defaults. -/
def fullReqSingle : CredibilityPropagationRequest :=
  ⟨[nodeB], [], 1/2, 100, 1/1000000, some 0, some 1⟩

/-- Full request: nodes A and B, edge `A -> B`, `max_iterations = 0`. -/
def fullReqMaxZero : CredibilityPropagationRequest :=
  ⟨[nodeA, nodeB], [⟨"A", "B", some 1⟩], 1/2, 0, 1/1000000, some 0, some 1⟩

/-- First-occurrence deduplication of a node list by id, mirroring which ids
the Python dict comprehensions end up keyed by (each duplicated id keeps one
entry; for this endpoint the kept entry's payload is irrelevant because the
per-node dict values ignore the node body). -/
def dedupNodesAux (seen : List String) : List NodeModel → List NodeModel
  | [] => []
  | n :: ns =>
      if n.id ∈ seen then dedupNodesAux seen ns
      else n :: dedupNodesAux (seen ++ [n.id]) ns

/-- The node list with duplicate ids collapsed to their first occurrence. -/
def dedupNodes (ns : List NodeModel) : List NodeModel := dedupNodesAux [] ns

/-- A full-graph request with duplicate node ids collapsed. -/
def dedupRequest (data : CredibilityPropagationRequest) :
    CredibilityPropagationRequest :=
  ⟨dedupNodes data.nodes, data.edges, data.lambda_, data.max_iterations,
    data.epsilon, data.evidence_min, data.evidence_max⟩

/-- A second node carrying the id "B" (different evidence payload). -/
def nodeBalt : NodeModel := ⟨"B", some [2], none, none⟩

/-- Full request with a duplicated node id "B" and a self-edge `B -> B`. -/
def fullReqDup : CredibilityPropagationRequest :=
  ⟨[nodeB, nodeBalt], [⟨"B", "B", some 1⟩], 1/2, 0, 1/1000000, some 0, some 1⟩

/-- Selective request: single node t with evidence [0.6, 0.8], no edges,
target t, bounds [-1, 1]. -/
def selReqT : NodeCredibilityRequest :=
  ⟨"t", [nodeT], [], 1/2, 100, 1/1000000, some (-1), some 1⟩

/-- Selective request: single node A with no evidence, no edges, target A. -/
def selReqA : NodeCredibilityRequest :=
  ⟨"A", [nodeA], [], 1/2, 100, 1/1000000, some 0, some 1⟩

theorem ScoreMap.set_apply (m : ScoreMap) (k : String) (v : ℚ) (s : String) :
    m.set k v s = if s = k then some v else m s := rfl

theorem ScoreMap.empty_apply (s : String) : ScoreMap.empty s = none := rfl

theorem ScoreMap.set_eq_self (m : ScoreMap) (k : String) (v : ℚ)
    (h : m k = some v) : m.set k v = m := by
  funext s
  by_cases hs : s = k
  · subst hs
    simp [ScoreMap.set, h]
  · simp [ScoreMap.set, hs]

theorem initScoresAux_lookup (E c : ScoreMap) (ns : List NodeModel) (s : String) :
    initScoresAux E c ns s =
      if ∃ n ∈ ns, n.id = s then some ((E s).getD 0) else c s := by
  induction ns generalizing c with
  | nil => simp [initScoresAux]
  | cons n ns ih =>
      rw [initScoresAux, ih]
      by_cases h : ∃ m ∈ ns, m.id = s
      · obtain ⟨m, hm, hid⟩ := h
        rw [if_pos ⟨m, hm, hid⟩, if_pos ⟨m, List.mem_cons_of_mem _ hm, hid⟩]
      · by_cases hs : n.id = s
        · rw [if_neg h, if_pos ⟨n, List.mem_cons_self n ns, hs⟩,
            ScoreMap.set_apply, if_pos hs.symm, hs]
        · have hno : ¬ ∃ m ∈ n :: ns, m.id = s := by
            rintro ⟨m, hm, hid⟩
            rcases List.mem_cons.mp hm with rfl | hm'
            · exact hs hid
            · exact h ⟨m, hm', hid⟩
          rw [if_neg h, if_neg hno, ScoreMap.set_apply,
            if_neg (fun hsn : s = n.id => hs hsn.symm)]

theorem fullEAux_lookup (emin emax : Option ℚ) (E : ScoreMap)
    (ns : List NodeModel) (s : String) :
    fullEAux emin emax E ns s =
      if ∃ n ∈ ns, n.id = s then some 0 else E s := by
  induction ns generalizing E with
  | nil => simp [fullEAux]
  | cons n ns ih =>
      rw [fullEAux]
      show fullEAux emin emax (E.set n.id 0) ns s = _
      rw [ih]
      by_cases h : ∃ m ∈ ns, m.id = s
      · obtain ⟨m, hm, hid⟩ := h
        rw [if_pos ⟨m, hm, hid⟩, if_pos ⟨m, List.mem_cons_of_mem _ hm, hid⟩]
      · by_cases hs : n.id = s
        · rw [if_neg h, if_pos ⟨n, List.mem_cons_self n ns, hs⟩,
            ScoreMap.set_apply, if_pos hs.symm]
        · have hno : ¬ ∃ m ∈ n :: ns, m.id = s := by
            rintro ⟨m, hm, hid⟩
            rcases List.mem_cons.mp hm with rfl | hm'
            · exact hs hid
            · exact h ⟨m, hm', hid⟩
          rw [if_neg h, if_neg hno, ScoreMap.set_apply,
            if_neg (fun hsn : s = n.id => hs hsn.symm)]

theorem fullE_lookup (data : CredibilityPropagationRequest) (s : String) :
    fullE data s = if ∃ n ∈ data.nodes, n.id = s then some 0 else none := by
  rw [fullE, fullEAux_lookup]
  rfl

theorem initIncoming_lookup (ns : List NodeModel) (s : String) :
    initIncoming ns s = if ∃ n ∈ ns, n.id = s then some [] else none := by
  induction ns with
  | nil => simp [initIncoming]
  | cons n ns ih =>
      show (if s = n.id then some [] else initIncoming ns s) = _
      by_cases hs : s = n.id
      · rw [if_pos hs, if_pos ⟨n, List.mem_cons_self n ns, hs.symm⟩]
      · rw [if_neg hs, ih]
        by_cases h : ∃ m ∈ ns, m.id = s
        · obtain ⟨m, hm, hid⟩ := h
          rw [if_pos ⟨m, hm, hid⟩, if_pos ⟨m, List.mem_cons_of_mem _ hm, hid⟩]
        · have hno : ¬ ∃ m ∈ n :: ns, m.id = s := by
            rintro ⟨m, hm, hid⟩
            rcases List.mem_cons.mp hm with rfl | hm'
            · exact hs hid.symm
            · exact h ⟨m, hm', hid⟩
          rw [if_neg h, if_neg hno]

theorem mem_pyDedupAux (acc l : List String) (s : String) :
    s ∈ pyDedupAux acc l ↔ s ∈ acc ∨ s ∈ l := by
  induction l generalizing acc with
  | nil => simp [pyDedupAux]
  | cons x xs ih =>
      rw [pyDedupAux]
      by_cases hx : x ∈ acc
      · rw [if_pos hx, ih]
        constructor
        · rintro (h | h)
          · exact Or.inl h
          · exact Or.inr (List.mem_cons_of_mem _ h)
        · rintro (h | h)
          · exact Or.inl h
          · rcases List.mem_cons.mp h with rfl | h'
            · exact Or.inl hx
            · exact Or.inr h'
      · rw [if_neg hx, ih]
        simp only [List.mem_append, List.mem_singleton, List.mem_cons]
        tauto

theorem mem_pyDedup (l : List String) (s : String) :
    s ∈ pyDedup l ↔ s ∈ l := by
  rw [pyDedup, mem_pyDedupAux]
  simp

theorem pyDedupAux_nodup (acc l : List String) (h : acc.Nodup) :
    (pyDedupAux acc l).Nodup := by
  induction l generalizing acc with
  | nil => exact h
  | cons x xs ih =>
      rw [pyDedupAux]
      by_cases hx : x ∈ acc
      · rw [if_pos hx]
        exact ih acc h
      · rw [if_neg hx]
        refine ih _ (List.Nodup.append h (List.nodup_singleton x) ?_)
        intro a ha hax
        rw [List.mem_singleton] at hax
        exact hx (hax ▸ ha)

theorem pyDedup_nodup (l : List String) : (pyDedup l).Nodup :=
  pyDedupAux_nodup [] l List.nodup_nil

theorem buildIncomingAux_isSome (m m' : IncomingMap) (es : List EdgeModel)
    (h : buildIncomingAux m es = .ok m') (s : String) :
    (m' s).isSome = (m s).isSome := by
  induction es generalizing m with
  | nil =>
      rw [buildIncomingAux] at h
      cases h
      rfl
  | cons e es ih =>
      rw [buildIncomingAux] at h
      split at h
      · exact absurd h (by simp)
      · rename_i l hm
        rw [ih _ h]
        by_cases hs : s = e.source
        · subst hs
          simp [hm]
        · simp [hs]

theorem buildIncomingAux_ok_of (m : IncomingMap) (es : List EdgeModel)
    (h : ∀ e ∈ es, (m e.source).isSome = true) :
    ∃ m', buildIncomingAux m es = .ok m' := by
  induction es generalizing m with
  | nil => exact ⟨m, rfl⟩
  | cons e es ih =>
      have he := h e (List.mem_cons_self e es)
      obtain ⟨l, hl⟩ := Option.isSome_iff_exists.mp he
      rw [buildIncomingAux, hl]
      refine ih _ (fun e' he' => ?_)
      by_cases hs : e'.source = e.source
      · simp [hs]
      · simpa [hs] using h e' (List.mem_cons_of_mem _ he')

theorem buildIncomingAux_untouched (m m' : IncomingMap) (es : List EdgeModel)
    (h : buildIncomingAux m es = .ok m') (s : String)
    (hs : ∀ e ∈ es, e.source ≠ s) : m' s = m s := by
  induction es generalizing m with
  | nil =>
      rw [buildIncomingAux] at h
      cases h
      rfl
  | cons e es ih =>
      rw [buildIncomingAux] at h
      split at h
      · exact absurd h (by simp)
      · rename_i l hm
        rw [ih _ h (fun e' he' => hs e' (List.mem_cons_of_mem _ he'))]
        have hne : s ≠ e.source :=
          fun hss => hs e (List.mem_cons_self e es) hss.symm
        simp only [if_neg hne]

theorem buildIncomingAux_mem (m m' : IncomingMap) (es : List EdgeModel)
    (h : buildIncomingAux m es = .ok m') (s : String) (e : EdgeModel)
    (he : e ∈ (m' s).getD []) : e ∈ (m s).getD [] ∨ e ∈ es := by
  induction es generalizing m with
  | nil =>
      rw [buildIncomingAux] at h
      cases h
      exact Or.inl he
  | cons e0 es ih =>
      rw [buildIncomingAux] at h
      split at h
      · exact absurd h (by simp)
      · rename_i l hm
        rcases ih _ h with h' | h'
        · by_cases hs : s = e0.source
          · subst hs
            simp only [if_pos rfl, Option.getD_some] at h'
            rcases List.mem_append.mp h' with h'' | h''
            · exact Or.inl (by simp [hm, h''])
            · rw [List.mem_singleton] at h''
              exact Or.inr (h'' ▸ List.mem_cons_self e0 es)
          · simp only [if_neg hs] at h'
            exact Or.inl h'
        · exact Or.inr (List.mem_cons_of_mem _ h')

theorem buildIncomingAux_error_of (m : IncomingMap) (es : List EdgeModel)
    (h : ∃ e ∈ es, (m e.source).isSome = false) :
    ∃ e ∈ es, (m e.source).isSome = false ∧
      buildIncomingAux m es = .error (.keyError e.source) := by
  induction es generalizing m with
  | nil => simp at h
  | cons e0 es ih =>
      cases hm : m e0.source with
      | none =>
          refine ⟨e0, List.mem_cons_self e0 es, by simp [hm], ?_⟩
          rw [buildIncomingAux, hm]
      | some l =>
          have hnext : ∃ e ∈ es, (m e.source).isSome = false := by
            obtain ⟨e, he, hd⟩ := h
            rcases List.mem_cons.mp he with rfl | he'
            · rw [hm] at hd
              simp at hd
            · exact ⟨e, he', hd⟩
          set m2 : IncomingMap :=
            fun s => if s = e0.source then some (l ++ [e0]) else m s with hm2
          have hsupp : ∀ s, (m2 s).isSome = (m s).isSome := by
            intro s
            by_cases hs : s = e0.source
            · subst hs
              simp [hm2, hm]
            · simp [hm2, hs]
          have hnext2 : ∃ e ∈ es, (m2 e.source).isSome = false := by
            obtain ⟨e, he, hd⟩ := hnext
            exact ⟨e, he, by rw [hsupp]; exact hd⟩
          obtain ⟨e, he, hd, herr⟩ := ih m2 hnext2
          refine ⟨e, List.mem_cons_of_mem _ he, by rw [← hsupp]; exact hd, ?_⟩
          rw [buildIncomingAux, hm]
          exact herr

theorem getLastD_mem_of_ne_nil {α : Type} (l : List α) (d : α) (h : l ≠ []) :
    l.getLastD d ∈ l := by
  induction l with
  | nil => exact absurd rfl h
  | cons a l ih =>
      cases l with
      | nil => simp
      | cons b l' =>
          rw [List.getLastD_cons]
          exact List.mem_cons_of_mem _ (ih (by simp))

theorem fullStepNodes_untouched (sq : ℚ → ℚ) (lam : ℚ) (E c : ScoreMap)
    (inc : IncomingMap) (ids : List String) (acc c' : ScoreMap) (s : String)
    (h : fullStepNodes sq lam E c inc ids acc = .ok c')
    (hid : ∀ j ∈ ids, j = s → (inc j).getD [] = []) : c' s = acc s := by
  induction ids generalizing acc with
  | nil =>
      rw [fullStepNodes] at h
      cases h
      rfl
  | cons j ids ih =>
      rw [fullStepNodes] at h
      split at h
      · exact absurd h (by simp)
      · rename_i acc1 hupd
        rw [ih acc1 h (fun j' hj' => hid j' (List.mem_cons_of_mem _ hj'))]
        rw [fullNodeUpdate] at hupd
        by_cases hj : (inc j).getD [] = []
        · rw [if_pos hj] at hupd
          cases hupd
          rfl
        · rw [if_neg hj] at hupd
          have hjs : ¬ s = j :=
            fun hh => hj (hid j (List.mem_cons_self j ids) hh.symm)
          split at hupd
          · exact absurd hupd (by simp)
          · split at hupd <;>
              · cases hupd
                simp [ScoreMap.set, hjs]

theorem fullLoop_shape (sq : ℚ → ℚ) (lam eps : ℚ) (E : ScoreMap)
    (inc : IncomingMap) (ids : List String) :
    ∀ fuel (c : ScoreMap) (tr out : List ScoreMap),
      fullLoop sq lam eps E inc ids fuel c tr = .ok out →
      ∃ ext, out = tr ++ ext := by
  intro fuel
  induction fuel with
  | zero =>
      intro c tr out h
      rw [fullLoop] at h
      cases h
      exact ⟨[], by simp⟩
  | succ n ih =>
      intro c tr out h
      rw [fullLoop] at h
      split at h
      · exact absurd h (by simp)
      · rename_i c_new hstep
        split at h
        · cases h
          exact ⟨[c_new], rfl⟩
        · obtain ⟨ext, hext⟩ := ih c_new (tr ++ [c_new]) out h
          exact ⟨[c_new] ++ ext, by simp [hext]⟩

theorem fullLoop_all (sq : ℚ → ℚ) (lam eps : ℚ) (E : ScoreMap)
    (inc : IncomingMap) (ids : List String) (P : ScoreMap → Prop)
    (hstep : ∀ c c', P c → fullStepNodes sq lam E c inc ids c = .ok c' → P c') :
    ∀ fuel (c : ScoreMap) (tr out : List ScoreMap), P c → (∀ m ∈ tr, P m) →
      fullLoop sq lam eps E inc ids fuel c tr = .ok out → ∀ m ∈ out, P m := by
  intro fuel
  induction fuel with
  | zero =>
      intro c tr out _ htr h
      rw [fullLoop] at h
      cases h
      exact htr
  | succ n ih =>
      intro c tr out hc htr h
      rw [fullLoop] at h
      split at h
      · exact absurd h (by simp)
      · rename_i c_new hstep'
        have hPnew : P c_new := hstep c c_new hc hstep'
        have htr' : ∀ m ∈ tr ++ [c_new], P m := by
          intro m hm
          rcases List.mem_append.mp hm with hm' | hm'
          · exact htr m hm'
          · rw [List.mem_singleton] at hm'
            exact hm' ▸ hPnew
        split at h
        · cases h
          exact htr'
        · exact ih c_new (tr ++ [c_new]) out hPnew htr' h

theorem get_claim_credibility_elim (sq : ℚ → ℚ)
    (data : CredibilityPropagationRequest) (resp : CredibilityPropagationResponse)
    (h : get_claim_credibility sq data = .ok resp) :
    resp.initial_evidence = fullE data ∧
    ((resp.iterations = [fullC0 data] ∧ resp.final_scores = fullC0 data) ∨
      ∃ inc trace, buildIncoming data.nodes data.edges = .ok inc ∧
        fullLoop sq data.lambda_ data.epsilon (fullE data) inc (fullKeyIds data)
          data.max_iterations.toNat (fullC0 data) [fullC0 data] = .ok trace ∧
        resp.iterations = trace ∧
        resp.final_scores = trace.getLastD (fullC0 data)) := by
  rw [get_claim_credibility] at h
  split at h
  · cases h
    exact ⟨rfl, Or.inl ⟨rfl, rfl⟩⟩
  · split at h
    · cases h
      exact ⟨rfl, Or.inl ⟨rfl, rfl⟩⟩
    · rw [fullGeneralPath] at h
      split at h
      · exact absurd h (by simp)
      · rename_i inc hinc
        split at h
        · exact absurd h (by simp)
        · rename_i trace htr
          cases h
          exact ⟨rfl, Or.inr ⟨inc, trace, hinc, htr, rfl, rfl⟩⟩

theorem selStepAux_lookup (sq : ℚ → ℚ) (lam : ℚ) (E c : ScoreMap)
    (inc : SelIncoming) (ns : List NodeModel) (acc : ScoreMap) (mc : ℚ)
    (s : String) :
    (selStepAux sq lam E c inc ns acc mc).1 s =
      if ∃ n ∈ ns, n.id = s then some (sq (selNodeZ lam E c inc s)) else acc s := by
  induction ns generalizing acc mc with
  | nil => simp [selStepAux]
  | cons n ns ih =>
      rw [selStepAux, ih]
      by_cases h : ∃ m ∈ ns, m.id = s
      · obtain ⟨m, hm, hid⟩ := h
        rw [if_pos ⟨m, hm, hid⟩, if_pos ⟨m, List.mem_cons_of_mem _ hm, hid⟩]
      · by_cases hs : n.id = s
        · rw [if_neg h, if_pos ⟨n, List.mem_cons_self n ns, hs⟩,
            ScoreMap.set_apply, if_pos hs.symm, hs]
        · have hno : ¬ ∃ m ∈ n :: ns, m.id = s := by
            rintro ⟨m, hm, hid⟩
            rcases List.mem_cons.mp hm with rfl | hm'
            · exact hs hid
            · exact h ⟨m, hm', hid⟩
          rw [if_neg h, if_neg hno, ScoreMap.set_apply,
            if_neg (fun hsn : s = n.id => hs hsn.symm)]

theorem selLoop_mem (sq : ℚ → ℚ) (lam eps : ℚ) (E : ScoreMap)
    (inc : SelIncoming) (ans : List NodeModel) :
    ∀ fuel (c : ScoreMap) (tr : List ScoreMap) (m : ScoreMap),
      m ∈ (selLoop sq lam eps E inc ans fuel c tr).1 →
      m ∈ tr ∨ ∃ c', m = (selStep sq lam E inc ans c').1 := by
  intro fuel
  induction fuel with
  | zero =>
      intro c tr m hm
      rw [selLoop] at hm
      exact Or.inl hm
  | succ n ih =>
      intro c tr m hm
      rw [selLoop] at hm
      split at hm
      · rcases List.mem_append.mp hm with hm' | hm'
        · exact Or.inl hm'
        · rw [List.mem_singleton] at hm'
          exact Or.inr ⟨c, hm'⟩
      · rcases ih _ _ m hm with hm' | hm'
        · rcases List.mem_append.mp hm' with hm'' | hm''
          · exact Or.inl hm''
          · rw [List.mem_singleton] at hm''
            exact Or.inr ⟨c, hm''⟩
        · exact Or.inr hm'

theorem selLoop_all (sq : ℚ → ℚ) (lam eps : ℚ) (E : ScoreMap)
    (inc : SelIncoming) (ans : List NodeModel) (P : ScoreMap → Prop)
    (hstep : ∀ c, P c → P (selStep sq lam E inc ans c).1) :
    ∀ fuel (c : ScoreMap) (tr : List ScoreMap), P c → (∀ m ∈ tr, P m) →
      (∀ m ∈ (selLoop sq lam eps E inc ans fuel c tr).1, P m) ∧
        P (selLoop sq lam eps E inc ans fuel c tr).2 := by
  intro fuel
  induction fuel with
  | zero =>
      intro c tr hc htr
      rw [selLoop]
      exact ⟨htr, hc⟩
  | succ n ih =>
      intro c tr hc htr
      rw [selLoop]
      have hPnew : P (selStep sq lam E inc ans c).1 := hstep c hc
      have htr' : ∀ m ∈ tr ++ [(selStep sq lam E inc ans c).1], P m := by
        intro m hm
        rcases List.mem_append.mp hm with hm' | hm'
        · exact htr m hm'
        · rw [List.mem_singleton] at hm'
          exact hm' ▸ hPnew
      split
      · exact ⟨htr', hPnew⟩
      · exact ih _ _ hPnew htr'

theorem selEAux_untouched (rm rM : Option ℚ) (E0 E' : ScoreMap)
    (ns : List NodeModel) (s : String) (h : selEAux rm rM E0 ns = .ok E')
    (hs : ∀ n ∈ ns, n.id ≠ s) : E' s = E0 s := by
  induction ns generalizing E0 with
  | nil =>
      rw [selEAux] at h
      cases h
      rfl
  | cons n ns ih =>
      rw [selEAux] at h
      split at h
      · exact absurd h (by simp)
      · rename_i v hv
        rw [ih _ h (fun n' hn' => hs n' (List.mem_cons_of_mem _ hn'))]
        have hne : ¬ s = n.id :=
          fun hh => hs n (List.mem_cons_self n ns) hh.symm
        simp [ScoreMap.set, hne]

theorem selEAux_values (rm rM : Option ℚ) (E0 E' : ScoreMap)
    (ns : List NodeModel) (B : ℚ → Prop) (h : selEAux rm rM E0 ns = .ok E')
    (h0 : ∀ s v, E0 s = some v → B v)
    (hn : ∀ n ∈ ns, ∀ v, nodeEvidenceScore rm rM n = .ok v → B v) :
    ∀ s v, E' s = some v → B v := by
  induction ns generalizing E0 with
  | nil =>
      rw [selEAux] at h
      cases h
      exact h0
  | cons n ns ih =>
      rw [selEAux] at h
      split at h
      · exact absurd h (by simp)
      · rename_i v hv
        refine ih _ h ?_ (fun n' hn' => hn n' (List.mem_cons_of_mem _ hn'))
        intro s w hw
        rw [ScoreMap.set_apply] at hw
        by_cases hsn : s = n.id
        · rw [if_pos hsn] at hw
          cases hw
          exact hn n (List.mem_cons_self n ns) _ hv
        · rw [if_neg hsn] at hw
          exact h0 s w hw

theorem selEAux_lookup_of_zero (rm rM : Option ℚ) (E0 E' : ScoreMap)
    (ns : List NodeModel) (h : selEAux rm rM E0 ns = .ok E')
    (hz : ∀ n ∈ ns, nodeEvidenceScore rm rM n = .ok 0) :
    ∀ s, E' s = if ∃ n ∈ ns, n.id = s then some 0 else E0 s := by
  induction ns generalizing E0 with
  | nil =>
      rw [selEAux] at h
      cases h
      intro s
      simp
  | cons n ns ih =>
      rw [selEAux] at h
      split at h
      · exact absurd h (by simp)
      · rename_i v hv
        have hv0 : v = 0 := by
          have := hz n (List.mem_cons_self n ns)
          rw [this] at hv
          cases hv
          rfl
        subst hv0
        intro s
        rw [ih _ h (fun n' hn' => hz n' (List.mem_cons_of_mem _ hn'))]
        by_cases hmem : ∃ m ∈ ns, m.id = s
        · obtain ⟨m, hm, hid⟩ := hmem
          rw [if_pos ⟨m, hm, hid⟩, if_pos ⟨m, List.mem_cons_of_mem _ hm, hid⟩]
        · by_cases hs : n.id = s
          · rw [if_neg hmem, if_pos ⟨n, List.mem_cons_self n ns, hs⟩,
              ScoreMap.set_apply, if_pos hs.symm]
          · have hno : ¬ ∃ m ∈ n :: ns, m.id = s := by
              rintro ⟨m, hm, hid⟩
              rcases List.mem_cons.mp hm with rfl | hm'
              · exact hs hid
              · exact hmem ⟨m, hm', hid⟩
            rw [if_neg hmem, if_neg hno, ScoreMap.set_apply,
              if_neg (fun hsn : s = n.id => hs hsn.symm)]

theorem get_node_credibility_elim (sq : ℚ → ℚ) (data : NodeCredibilityRequest)
    (resp : NodeCredibilityResponse)
    (h : get_node_credibility sq data = .ok resp) :
    ∃ E, selEAux data.evidence_min data.evidence_max ScoreMap.empty
        (selAffectedNodes data) = .ok E ∧
      ((selIsolated data = true ∧
          resp = ⟨data.target_node_id, {data.target_node_id},
            ScoreMap.empty.set data.target_node_id ((E data.target_node_id).getD 0),
            [ScoreMap.empty.set data.target_node_id ((E data.target_node_id).getD 0)],
            ScoreMap.empty.set data.target_node_id ((E data.target_node_id).getD 0)⟩) ∨
        (selIsolated data = false ∧
          ∃ inc, selIncoming (selAffectedEdges data) = .ok inc ∧
            resp = ⟨data.target_node_id, selAffectedIds data, E,
              (selLoop sq data.lambda_ data.epsilon E inc (selAffectedNodes data)
                data.max_iterations.toNat (initScores (selAffectedNodes data) E)
                [initScores (selAffectedNodes data) E]).1,
              (selLoop sq data.lambda_ data.epsilon E inc (selAffectedNodes data)
                data.max_iterations.toNat (initScores (selAffectedNodes data) E)
                [initScores (selAffectedNodes data) E]).2⟩)) := by
  rw [get_node_credibility] at h
  split at h
  · exact absurd h (by simp)
  · rename_i E hE
    refine ⟨E, hE, ?_⟩
    split at h
    · cases h
      rename_i hiso
      exact Or.inl ⟨hiso, rfl⟩
    · rename_i hiso
      split at h
      · exact absurd h (by simp)
      · rename_i inc hinc
        cases h
        exact Or.inr ⟨hiso, inc, hinc, rfl⟩

theorem bfsPush_subset :
    ∀ (l : List String) (p : List String × Finset String), p.2 ⊆ (bfsPush p l).2 := by
  intro l
  induction l with
  | nil =>
      intro p
      rw [bfsPush]
  | cons m ms ih =>
      intro p
      rw [bfsPush]
      by_cases hm : m ∈ p.2
      · rw [if_pos hm]
        exact ih p
      · rw [if_neg hm]
        exact (Finset.subset_insert m p.2).trans (ih (p.1 ++ [m], insert m p.2))

theorem bfsPush_mem :
    ∀ (l : List String) (p : List String × Finset String) (x : String),
      x ∈ (bfsPush p l).2 → x ∈ p.2 ∨ x ∈ l := by
  intro l
  induction l with
  | nil =>
      intro p x hx
      rw [bfsPush] at hx
      exact Or.inl hx
  | cons m ms ih =>
      intro p x hx
      rw [bfsPush] at hx
      by_cases hm : m ∈ p.2
      · rw [if_pos hm] at hx
        rcases ih p x hx with h | h
        · exact Or.inl h
        · exact Or.inr (List.mem_cons_of_mem _ h)
      · rw [if_neg hm] at hx
        rcases ih _ x hx with h | h
        · rcases Finset.mem_insert.mp h with rfl | h'
          · exact Or.inr (List.mem_cons_self x ms)
          · exact Or.inl h'
        · exact Or.inr (List.mem_cons_of_mem _ h)

theorem bfs_subset (dg : String → List String) :
    ∀ (fuel : ℕ) (wl : List String) (aff : Finset String),
      aff ⊆ bfs dg fuel wl aff := by
  intro fuel
  induction fuel with
  | zero =>
      intro wl aff
      rw [bfs]
  | succ n ih =>
      intro wl aff
      cases wl with
      | nil => rw [bfs]
      | cons cur rest =>
          rw [bfs]
          exact (bfsPush_subset (dg cur) (rest, aff)).trans (ih _ _)

theorem bfs_mem (dg : String → List String) (P : String → Prop)
    (hdg : ∀ s m, m ∈ dg s → P m) :
    ∀ (fuel : ℕ) (wl : List String) (aff : Finset String),
      (∀ x ∈ aff, P x) → ∀ x ∈ bfs dg fuel wl aff, P x := by
  intro fuel
  induction fuel with
  | zero =>
      intro wl aff haff x hx
      rw [bfs] at hx
      exact haff x hx
  | succ n ih =>
      intro wl aff haff x hx
      cases wl with
      | nil =>
          rw [bfs] at hx
          exact haff x hx
      | cons cur rest =>
          rw [bfs] at hx
          refine ih _ _ ?_ x hx
          intro y hy
          rcases bfsPush_mem (dg cur) (rest, aff) y hy with h | h
          · exact haff y h
          · exact hdg cur y h

theorem depGraphAux_mem (es : List EdgeModel) :
    ∀ (g : String → List String) (s m : String), m ∈ depGraphAux g es s →
      m ∈ g s ∨ ∃ e ∈ es, e.source = m ∧ e.target = s := by
  induction es with
  | nil =>
      intro g s m hm
      rw [depGraphAux] at hm
      exact Or.inl hm
  | cons e es ih =>
      intro g s m hm
      rw [depGraphAux] at hm
      rcases ih _ s m hm with h | h
      · by_cases hs : s = e.target
        · rw [if_pos hs] at h
          rcases List.mem_append.mp h with h' | h'
          · exact Or.inl (hs ▸ h')
          · rw [List.mem_singleton] at h'
            exact Or.inr ⟨e, List.mem_cons_self e es, h'.symm, hs.symm⟩
        · rw [if_neg hs] at h
          exact Or.inl h
      · obtain ⟨e', he', hsrc, htgt⟩ := h
        exact Or.inr ⟨e', List.mem_cons_of_mem _ he', hsrc, htgt⟩

theorem dependencyGraph_mem (edges : List EdgeModel) (s m : String)
    (hm : m ∈ dependencyGraph edges s) :
    ∃ e ∈ edges, e.source = m ∧ e.target = s := by
  rcases depGraphAux_mem edges _ s m hm with h | h
  · simp at h
  · exact h

theorem get_affected_nodes_target_mem (t : String) (nodes : List NodeModel)
    (edges : List EdgeModel) : t ∈ get_affected_nodes t nodes edges := by
  rw [get_affected_nodes]
  exact bfs_subset _ _ _ _ (Finset.mem_singleton_self t)

theorem get_affected_nodes_mem (t : String) (nodes : List NodeModel)
    (edges : List EdgeModel) (x : String)
    (hx : x ∈ get_affected_nodes t nodes edges) :
    x = t ∨ ∃ e ∈ edges, e.source = x := by
  rw [get_affected_nodes] at hx
  refine bfs_mem _ (fun y => y = t ∨ ∃ e ∈ edges, e.source = y) ?_ _ _ _ ?_ x hx
  · intro s m hm
    obtain ⟨e, he, hsrc, _⟩ := dependencyGraph_mem edges s m hm
    exact Or.inr ⟨e, he, hsrc⟩
  · intro y hy
    exact Or.inl (Finset.mem_singleton.mp hy)

theorem selZFold_eq_sum (c : ScoreMap) :
    ∀ (l : List (String × ℚ)) (z : ℚ),
      selZFold c z l = z + (l.map (selContribOf c)).sum := by
  intro l
  induction l with
  | nil =>
      intro z
      simp [selZFold]
  | cons p rest ih =>
      intro z
      obtain ⟨src, w⟩ := p
      cases hc : c src with
      | none =>
          have hstep : selZFold c z ((src, w) :: rest) = selZFold c z rest := by
            rw [selZFold, hc]
          have hsel : selContribOf c (src, w) = 0 := by
            rw [selContribOf, hc]
          rw [hstep, ih]
          simp only [List.map_cons, List.sum_cons, hsel]
          ring
      | some s =>
          have hstep : selZFold c z ((src, w) :: rest) =
              selZFold c (z + selContribution w s) rest := by
            rw [selZFold, hc]
          have hsel : selContribOf c (src, w) = selContribution w s := by
            rw [selContribOf, hc]
          rw [hstep, ih]
          simp only [List.map_cons, List.sum_cons, hsel]
          ring

/-- Claim C2: in the full-graph endpoint the intrinsic score `E_i` is 0.0 for
every node of every request — `getattr(node, "evidence_score", None)` always
returns `None` because `NodeModel` declares no such field — so every entry of
`initial_evidence`, and hence every entry of the initial credibility state, is
0.0 regardless of the evidence supplied. -/
theorem claim_C2 (sq : ℚ → ℚ) (data : CredibilityPropagationRequest)
    (n : NodeModel) (hn : n ∈ data.nodes) :
    fullE data n.id = some 0 ∧
    fullC0 data n.id = some 0 ∧
    ∀ resp, get_claim_credibility sq data = .ok resp →
      resp.initial_evidence n.id = some 0 ∧
      ∀ m0, resp.iterations.head? = some m0 → m0 n.id = some 0 := by
  have hE : fullE data n.id = some 0 := by
    rw [fullE_lookup]
    exact if_pos ⟨n, hn, rfl⟩
  have hc0 : fullC0 data n.id = some 0 := by
    rw [fullC0, initScores, initScoresAux_lookup, if_pos ⟨n, hn, rfl⟩, hE]
    rfl
  refine ⟨hE, hc0, ?_⟩
  intro resp hresp
  obtain ⟨hinit, hcase⟩ := get_claim_credibility_elim sq data resp hresp
  refine ⟨by rw [hinit]; exact hE, ?_⟩
  intro m0 hm0
  rcases hcase with ⟨hiter, _⟩ | ⟨inc, trace, _, htr, hiter, _⟩
  · rw [hiter] at hm0
    cases hm0
    exact hc0
  · obtain ⟨ext, hext⟩ := fullLoop_shape _ _ _ _ _ _ _ _ _ _ htr
    rw [hiter, hext] at hm0
    rw [List.singleton_append, List.head?_cons] at hm0
    cases hm0
    exact hc0

/-- Witness for claim C2 at a concrete request whose node carries evidence. -/
theorem claim_C2_witness :
    nodeB ∈ fullReqSingle.nodes ∧ fullE fullReqSingle nodeB.id = some 0 :=
  ⟨by decide, (claim_C2 sqZero fullReqSingle nodeB (by decide)).1⟩

/-- Counterexample to claim C4 as stated: the selective endpoint does NOT use
the asymmetric attack rule — its per-edge contribution is `weight *
source_score` for every sign of the weight, so for `w = -1` and source score
`-1/2` it contributes `1/2` instead of `-1/2`. -/
theorem claim_C4_counterexample :
    ¬ ((∀ w s : ℚ, 0 < w → fullEdgeContribution w s = |w| * s) ∧
       (∀ w s : ℚ, w < 0 → fullEdgeContribution w s = -(|w| * |s|)) ∧
       (∀ w s : ℚ, 0 < w → selContribution w s = |w| * s) ∧
       (∀ w s : ℚ, w < 0 → selContribution w s = -(|w| * |s|))) := by
  intro h
  have := h.2.2.2 (-1) (-1) (by norm_num)
  rw [selContribution, abs_neg, abs_one] at this
  norm_num at this

/-- Claim C4, amended: only the full-graph endpoint uses the asymmetric rule
(`|w| * s` for supports, `-|w| * |s|` for attacks); the selective endpoint's
`Z` adds `weight * source_score` (`selContribution`) for every incoming edge,
with missing and zero weights both coerced to 1 by `edge.weight or 1.0`. -/
theorem claim_C4 :
    (∀ w s : ℚ, 0 < w → fullEdgeContribution w s = |w| * s) ∧
    (∀ w s : ℚ, w < 0 → fullEdgeContribution w s = -(|w| * |s|)) ∧
    (∀ (lam : ℚ) (E c : ScoreMap) (inc : SelIncoming) (id : String)
        (l : List (String × ℚ)), inc id = some l →
      selNodeZ lam E c inc id =
        lam * (E id).getD 0 + (l.map (selContribOf c)).sum) ∧
    (selEdgeWeight none = 1 ∧ selEdgeWeight (some 0) = 1 ∧
      ∀ w : ℚ, w ≠ 0 → selEdgeWeight (some w) = w) := by
  refine ⟨?_, ?_, ?_, rfl, rfl, ?_⟩
  · intro w s hw
    rw [fullEdgeContribution, if_pos hw]
  · intro w s hw
    rw [fullEdgeContribution, if_neg (by linarith)]
  · intro lam E c inc id l hl
    rw [selNodeZ, hl]
    show selZFold c (lam * (E id).getD 0) l = _
    rw [selZFold_eq_sum]
  · intro w hw
    rw [selEdgeWeight, if_neg hw]

/-- Witness for claim C4 at concrete weights and scores. -/
theorem claim_C4_witness :
    (0:ℚ) < 2 ∧ fullEdgeContribution 2 3 = |(2:ℚ)| * 3 :=
  ⟨by norm_num, claim_C4.1 2 3 (by norm_num)⟩

theorem dedupNodes_ne_nil (ns : List NodeModel) (h : ns ≠ []) :
    dedupNodes ns ≠ [] := by
  cases ns with
  | nil => exact absurd rfl h
  | cons n ns =>
      rw [dedupNodes, dedupNodesAux, if_neg (List.not_mem_nil n.id)]
      exact List.cons_ne_nil n _

theorem dedupNodesAux_exists_id :
    ∀ (ns : List NodeModel) (seen : List String) (s : String), s ∉ seen →
      ((∃ n ∈ dedupNodesAux seen ns, n.id = s) ↔ ∃ n ∈ ns, n.id = s) := by
  intro ns
  induction ns with
  | nil =>
      intro seen s _
      simp [dedupNodesAux]
  | cons n ns ih =>
      intro seen s hs
      by_cases h : n.id ∈ seen
      · rw [dedupNodesAux, if_pos h, ih seen s hs]
        constructor
        · rintro ⟨m, hm, hid⟩
          exact ⟨m, List.mem_cons_of_mem n hm, hid⟩
        · rintro ⟨m, hm, hid⟩
          rcases List.mem_cons.mp hm with rfl | hm'
          · exact absurd (hid ▸ h) hs
          · exact ⟨m, hm', hid⟩
      · rw [dedupNodesAux, if_neg h]
        have hs2 : s = n.id → s ∉ seen ++ [n.id] → False := fun hsn hc => hc
          (List.mem_append.mpr (Or.inr (List.mem_singleton.mpr hsn)))
        constructor
        · rintro ⟨m, hm, hid⟩
          rcases List.mem_cons.mp hm with rfl | hm'
          · exact ⟨m, List.mem_cons_self m ns, hid⟩
          · by_cases hsn : s = n.id
            · exact ⟨n, List.mem_cons_self n ns, hsn.symm⟩
            · have hs' : s ∉ seen ++ [n.id] := by
                intro hc
                rcases List.mem_append.mp hc with hc' | hc'
                · exact hs hc'
                · exact hsn (List.mem_singleton.mp hc')
              obtain ⟨m', hm'', hid'⟩ := (ih (seen ++ [n.id]) s hs').mp ⟨m, hm', hid⟩
              exact ⟨m', List.mem_cons_of_mem n hm'', hid'⟩
        · rintro ⟨m, hm, hid⟩
          rcases List.mem_cons.mp hm with rfl | hm'
          · exact ⟨m, List.mem_cons_self m _, hid⟩
          · by_cases hsn : s = n.id
            · exact ⟨n, List.mem_cons_self n _, hsn.symm⟩
            · have hs' : s ∉ seen ++ [n.id] := by
                intro hc
                rcases List.mem_append.mp hc with hc' | hc'
                · exact hs hc'
                · exact hsn (List.mem_singleton.mp hc')
              obtain ⟨m', hm'', hid'⟩ := (ih (seen ++ [n.id]) s hs').mpr ⟨m, hm', hid⟩
              exact ⟨m', List.mem_cons_of_mem n hm'', hid'⟩

theorem pyDedupAux_dedupNodesAux :
    ∀ (ns : List NodeModel) (acc : List String),
      pyDedupAux acc (idsOf (dedupNodesAux acc ns)) = pyDedupAux acc (idsOf ns) := by
  intro ns
  induction ns with
  | nil => intro acc; rfl
  | cons n ns ih =>
      intro acc
      have hic : idsOf (n :: ns) = n.id :: idsOf ns := rfl
      by_cases h : n.id ∈ acc
      · rw [dedupNodesAux, if_pos h, ih acc, hic, pyDedupAux, if_pos h]
      · have hic2 : idsOf (n :: dedupNodesAux (acc ++ [n.id]) ns) =
            n.id :: idsOf (dedupNodesAux (acc ++ [n.id]) ns) := rfl
        rw [dedupNodesAux, if_neg h, hic2, pyDedupAux, if_neg h,
          ih (acc ++ [n.id]), hic, pyDedupAux, if_neg h]

theorem get_claim_credibility_dedup (sq : ℚ → ℚ)
    (data : CredibilityPropagationRequest) (hedges : data.edges ≠ []) :
    get_claim_credibility sq (dedupRequest data) = get_claim_credibility sq data := by
  have hEeq : fullE (dedupRequest data) = fullE data := by
    funext s
    rw [fullE_lookup, fullE_lookup]
    by_cases h : ∃ n ∈ data.nodes, n.id = s
    · rw [if_pos (show ∃ n ∈ (dedupRequest data).nodes, n.id = s from
        (dedupNodesAux_exists_id data.nodes [] s (List.not_mem_nil s)).mpr h),
        if_pos h]
    · rw [if_neg (show ¬ ∃ n ∈ (dedupRequest data).nodes, n.id = s from fun hc =>
        h ((dedupNodesAux_exists_id data.nodes [] s (List.not_mem_nil s)).mp hc)),
        if_neg h]
  have hC0eq : fullC0 (dedupRequest data) = fullC0 data := by
    funext s
    rw [fullC0, fullC0, initScores, initScores, initScoresAux_lookup,
      initScoresAux_lookup, hEeq]
    by_cases h : ∃ n ∈ data.nodes, n.id = s
    · rw [if_pos (show ∃ n ∈ (dedupRequest data).nodes, n.id = s from
        (dedupNodesAux_exists_id data.nodes [] s (List.not_mem_nil s)).mpr h),
        if_pos h]
    · rw [if_neg (show ¬ ∃ n ∈ (dedupRequest data).nodes, n.id = s from fun hc =>
        h ((dedupNodesAux_exists_id data.nodes [] s (List.not_mem_nil s)).mp hc)),
        if_neg h]
  have hInceq : initIncoming (dedupRequest data).nodes = initIncoming data.nodes := by
    funext s
    rw [initIncoming_lookup, initIncoming_lookup]
    by_cases h : ∃ n ∈ data.nodes, n.id = s
    · rw [if_pos (show ∃ n ∈ (dedupRequest data).nodes, n.id = s from
        (dedupNodesAux_exists_id data.nodes [] s (List.not_mem_nil s)).mpr h),
        if_pos h]
    · rw [if_neg (show ¬ ∃ n ∈ (dedupRequest data).nodes, n.id = s from fun hc =>
        h ((dedupNodesAux_exists_id data.nodes [] s (List.not_mem_nil s)).mp hc)),
        if_neg h]
  have hKeq : fullKeyIds (dedupRequest data) = fullKeyIds data := by
    rw [fullKeyIds, fullKeyIds]
    exact pyDedupAux_dedupNodesAux data.nodes []
  rw [get_claim_credibility, get_claim_credibility]
  by_cases h0 : data.nodes = []
  · have h0l : data.nodes.length = 0 := by rw [h0]; rfl
    have h0l2 : (dedupRequest data).nodes.length = 0 := by
      show (dedupNodes data.nodes).length = 0
      rw [dedupNodes, h0]
      rfl
    rw [if_pos h0l2, if_pos h0l, hEeq, hC0eq]
  · have h1 : data.nodes.length ≠ 0 := fun hc => h0 (List.length_eq_zero.mp hc)
    have h12 : ¬ (dedupRequest data).nodes.length = 0 := fun hc =>
      dedupNodes_ne_nil data.nodes h0 (List.length_eq_zero.mp hc)
    have hel : data.edges.length ≠ 0 := fun hc => hedges (List.length_eq_zero.mp hc)
    rw [if_neg h12, if_neg h1,
      if_neg (show ¬ ((dedupRequest data).nodes.length = 1 ∧
        (dedupRequest data).edges.length = 0) from fun hc => hel hc.2),
      if_neg (show ¬ (data.nodes.length = 1 ∧ data.edges.length = 0) from
        fun hc => hel hc.2),
      fullGeneralPath, fullGeneralPath, buildIncoming, buildIncoming,
      show (dedupRequest data).edges = data.edges from rfl,
      show (dedupRequest data).lambda_ = data.lambda_ from rfl,
      show (dedupRequest data).epsilon = data.epsilon from rfl,
      show (dedupRequest data).max_iterations = data.max_iterations from rfl,
      hEeq, hC0eq, hKeq, hInceq]

/-- Counterexample to claim C7 as stated: a request with `max_iterations = 0`
(non-positive) is not rejected with a ValidationError — the full endpoint runs
and returns its initial state. -/
theorem claim_C7_counterexample :
    ¬ (∀ (sq : ℚ → ℚ) (data : CredibilityPropagationRequest),
        ((∃ e ∈ data.edges, (¬ ∃ n ∈ data.nodes, n.id = e.source) ∨
            ¬ ∃ n ∈ data.nodes, n.id = e.target) ∨
          ¬ (idsOf data.nodes).Nodup ∨ data.max_iterations ≤ 0) →
        get_claim_credibility sq data = .error .validationError) := by
  intro h
  have herr := h sqZero fullReqMaxZero (Or.inr (Or.inr (by decide)))
  have hok : (get_claim_credibility sqZero fullReqMaxZero).map (fun _ => ()) =
      .ok () := by decide
  rw [herr] at hok
  simp [Except.map] at hok

/-- Claim C7, amended: the engine performs no explicit validation.  An edge
whose source id is absent from the node set does abort the full endpoint, but
with an uncaught `KeyError` (raised while building `incoming_edges`, before
any iteration), not a ValidationError; a non-positive `max_iterations` is not
rejected at all — with every edge source present the endpoint returns the
initial state after zero iterations; and duplicate node ids are silently
collapsed by the dicts rather than rejected: the key list the iteration
ranges over carries each id exactly once (it is keyed by the id set), and
with a nonempty edge list the endpoint returns exactly what it returns on
the node list with duplicate ids collapsed to their first occurrence (with
an empty edge list, collapsing can change only which early return fires,
since the single-node shortcut tests the raw list length). -/
theorem claim_C7 (sq : ℚ → ℚ) (data : CredibilityPropagationRequest) :
    (data.nodes.length ≠ 0 → ¬(data.nodes.length = 1 ∧ data.edges.length = 0) →
      (∃ e ∈ data.edges, ¬ ∃ n ∈ data.nodes, n.id = e.source) →
      ∃ e ∈ data.edges, (¬ ∃ n ∈ data.nodes, n.id = e.source) ∧
        get_claim_credibility sq data = .error (.keyError e.source)) ∧
    (data.max_iterations ≤ 0 →
      (∀ e ∈ data.edges, ∃ n ∈ data.nodes, n.id = e.source) →
      get_claim_credibility sq data = .ok ⟨fullE data, [fullC0 data], fullC0 data⟩) ∧
    ((fullKeyIds data).Nodup ∧ ∀ s, s ∈ fullKeyIds data ↔ s ∈ idsOf data.nodes) ∧
    (data.edges ≠ [] →
      get_claim_credibility sq (dedupRequest data) = get_claim_credibility sq data) := by
  refine ⟨?_, ?_,
    ⟨pyDedup_nodup (idsOf data.nodes), fun s => mem_pyDedup (idsOf data.nodes) s⟩,
    fun he => get_claim_credibility_dedup sq data he⟩
  · intro h0 h1 hd
    have hpre : ∃ e ∈ data.edges,
        ((initIncoming data.nodes) e.source).isSome = false := by
      obtain ⟨e, he, hmiss⟩ := hd
      refine ⟨e, he, ?_⟩
      rw [initIncoming_lookup, if_neg hmiss]
      rfl
    obtain ⟨e, he, hmiss', herr⟩ :=
      buildIncomingAux_error_of (initIncoming data.nodes) data.edges hpre
    have hmiss : ¬ ∃ n ∈ data.nodes, n.id = e.source := by
      intro hc
      rw [initIncoming_lookup, if_pos hc] at hmiss'
      simp at hmiss'
    refine ⟨e, he, hmiss, ?_⟩
    rw [get_claim_credibility, if_neg h0, if_neg h1, fullGeneralPath,
      buildIncoming, herr]
  · intro hmax hsrc
    have hfuel : data.max_iterations.toNat = 0 := by omega
    rw [get_claim_credibility]
    by_cases h0 : data.nodes.length = 0
    · rw [if_pos h0]
    · rw [if_neg h0]
      by_cases h1 : data.nodes.length = 1 ∧ data.edges.length = 0
      · rw [if_pos h1]
      · rw [if_neg h1, fullGeneralPath]
        have hpre : ∀ e ∈ data.edges,
            ((initIncoming data.nodes) e.source).isSome = true := by
          intro e he
          rw [initIncoming_lookup, if_pos (hsrc e he)]
          rfl
        obtain ⟨inc, hinc⟩ :=
          buildIncomingAux_ok_of (initIncoming data.nodes) data.edges hpre
        rw [buildIncoming, hinc, hfuel]
        rfl

/-- Witness for claim C7 at a concrete request with `max_iterations = 0` and
at a concrete request with a duplicated node id "B". -/
theorem claim_C7_witness :
    fullReqMaxZero.max_iterations ≤ 0 ∧
    get_claim_credibility sqZero fullReqMaxZero =
      .ok ⟨fullE fullReqMaxZero, [fullC0 fullReqMaxZero], fullC0 fullReqMaxZero⟩ ∧
    ¬ (idsOf fullReqDup.nodes).Nodup ∧
    fullReqDup.edges ≠ [] ∧
    get_claim_credibility sqZero (dedupRequest fullReqDup) =
      get_claim_credibility sqZero fullReqDup :=
  ⟨by decide, (claim_C7 sqZero fullReqMaxZero).2.1 (by decide) (by decide),
    by decide, by decide, (claim_C7 sqZero fullReqDup).2.2.2 (by decide)⟩

theorem clampList_some (lo hi : ℚ) :
    ∀ evs : List ℚ, clampList (some lo) (some hi) evs =
      .ok (evs.map (fun x => clampQ x lo hi)) := by
  intro evs
  induction evs with
  | nil => rfl
  | cons x xs ih =>
      have hc : clampEv x (some lo) (some hi) = .ok (clampQ x lo hi) := rfl
      rw [clampList, hc, ih]
      rfl

/-- Counterexample to claim C8 as stated: the evidence aggregation of the
selective endpoint CAN raise — when the request carries an explicit null
`evidence_min`/`evidence_max` and a node with evidence has no per-node
override, Python's `min(ev, None)` raises `TypeError`. -/
theorem claim_C8_counterexample :
    ¬ (∀ (rm rM : Option ℚ) (n : NodeModel),
        ((n.evidence = none ∨ n.evidence = some []) →
          nodeEvidenceScore rm rM n = .ok 0) ∧
        (∀ evs : List ℚ, n.evidence = some evs → evs ≠ [] →
          ∀ lo hi : ℚ, effMin rm n = some lo → effMax rM n = some hi →
          nodeEvidenceScore rm rM n =
            .ok ((evs.map (fun x => clampQ x lo hi)).sum / evs.length)) ∧
        (∃ q, nodeEvidenceScore rm rM n = .ok q)) := by
  intro h
  obtain ⟨q, hq⟩ := (h none none nodeB).2.2
  have herr : nodeEvidenceScore none none nodeB = .error .typeError := by decide
  rw [herr] at hq
  simp at hq

theorem nodeEvidenceScore_empty (rm rM : Option ℚ) (n : NodeModel)
    (h : n.evidence = none ∨ n.evidence = some []) :
    nodeEvidenceScore rm rM n = .ok 0 := by
  have hget : n.evidence.getD [] = [] := by
    rcases h with h | h <;> rw [h] <;> rfl
  rw [nodeEvidenceScore, if_pos hget]

theorem nodeEvidenceScore_mean (rm rM : Option ℚ) (n : NodeModel)
    (evs : List ℚ) (hevs : n.evidence = some evs) (hne : evs ≠ [])
    (lo hi : ℚ) (hlo : effMin rm n = some lo) (hhi : effMax rM n = some hi) :
    nodeEvidenceScore rm rM n =
      .ok ((evs.map (fun x => clampQ x lo hi)).sum / evs.length) := by
  have hget : n.evidence.getD [] = evs := by
    rw [hevs]
    rfl
  rw [nodeEvidenceScore, hget, if_neg hne, hlo, hhi, clampList_some]
  have hpos : 0 < evs.length := List.length_pos.mpr hne
  simp only [List.length_map]
  rw [if_pos hpos]

theorem nodeEvidenceScore_null_bound (rm rM : Option ℚ) (n : NodeModel)
    (hne : n.evidence.getD [] ≠ [])
    (hmiss : effMin rm n = none ∨ effMax rM n = none) :
    nodeEvidenceScore rm rM n = .error .typeError := by
  rw [nodeEvidenceScore, if_neg hne]
  cases hget : n.evidence.getD [] with
  | nil => exact absurd hget hne
  | cons x xs =>
      have hc : clampEv x (effMin rm n) (effMax rM n) = .error .typeError := by
        cases hM : effMax rM n with
        | none => rfl
        | some b =>
            have hm : effMin rm n = none := by
              rcases hmiss with h | h
              · exact h
              · rw [h] at hM
                cases hM
            rw [hm]
            rfl
      have hcl : clampList (effMin rm n) (effMax rM n) (x :: xs) =
          .error .typeError := by
        rw [clampList, hc]
      rw [hcl]

/-- Claim C8, amended: the aggregation returns 0.0 for empty or absent
evidence and the arithmetic mean of the clamped values otherwise, and never
raises PROVIDED the effective bounds (per-node override, else graph-wide
value) are both present; when the evidence list is nonempty and an effective
bound is null, it raises `TypeError` instead. -/
theorem claim_C8 (rm rM : Option ℚ) (n : NodeModel) :
    ((n.evidence = none ∨ n.evidence = some []) →
      nodeEvidenceScore rm rM n = .ok 0) ∧
    (∀ evs : List ℚ, n.evidence = some evs → evs ≠ [] →
      ∀ lo hi : ℚ, effMin rm n = some lo → effMax rM n = some hi →
      nodeEvidenceScore rm rM n =
        .ok ((evs.map (fun x => clampQ x lo hi)).sum / evs.length)) ∧
    (n.evidence.getD [] ≠ [] → (effMin rm n = none ∨ effMax rM n = none) →
      nodeEvidenceScore rm rM n = .error .typeError) :=
  ⟨nodeEvidenceScore_empty rm rM n,
    fun evs hevs hne lo hi hlo hhi =>
      nodeEvidenceScore_mean rm rM n evs hevs hne lo hi hlo hhi,
    fun hne hmiss => nodeEvidenceScore_null_bound rm rM n hne hmiss⟩

/-- Witness for claim C8 at the spec's example: evidence [0.6, 0.8] clamped to
[-1, 1] averages to 0.7. -/
theorem claim_C8_witness :
    nodeT.evidence = some [3/5, 4/5] ∧
    nodeEvidenceScore (some (-1)) (some 1) nodeT = .ok (7/10) := by
  refine ⟨rfl, ?_⟩
  have h := (claim_C8 (some (-1)) (some 1) nodeT).2.1 [3/5, 4/5] rfl
    (by simp) (-1) 1 rfl rfl
  rw [h]
  have h1 : clampQ (3/5) (-1) 1 = 3/5 := by
    rw [clampQ, min_eq_left (by norm_num), max_eq_left (by norm_num)]
  have h2 : clampQ (4/5) (-1) 1 = 4/5 := by
    rw [clampQ, min_eq_left (by norm_num), max_eq_left (by norm_num)]
  rw [List.map_cons, List.map_cons, List.map_nil, h1, h2]
  norm_num

theorem fullLoop_converged (sq : ℚ → ℚ) (lam eps : ℚ) (E : ScoreMap)
    (inc : IncomingMap) (ids : List String) (k : ℕ) (c c' : ScoreMap)
    (tr : List ScoreMap)
    (hstep : fullStepNodes sq lam E c inc ids c = .ok c')
    (hconv : ids = [] ∨ maxChange ids c' c < eps) :
    fullLoop sq lam eps E inc ids (k + 1) c tr = .ok (tr ++ [c']) := by
  rw [fullLoop]
  simp only [hstep]
  rw [if_pos hconv]

theorem fullStepNodes_nil (sq : ℚ → ℚ) (lam : ℚ) (E c : ScoreMap)
    (inc : IncomingMap) (acc : ScoreMap) :
    fullStepNodes sq lam E c inc [] acc = .ok acc := rfl

theorem full_single_early (sq : ℚ → ℚ) (data : CredibilityPropagationRequest)
    (h1 : data.nodes.length = 1) (h2 : data.edges = []) :
    get_claim_credibility sq data =
      .ok ⟨fullE data, [fullC0 data], fullC0 data⟩ := by
  rw [get_claim_credibility, if_neg (by omega), if_pos ⟨h1, by simp [h2]⟩]

theorem full_single_general (sq : ℚ → ℚ) (data : CredibilityPropagationRequest)
    (h1 : data.nodes.length = 1) (h2 : data.edges = [])
    (hmax : 1 ≤ data.max_iterations) (heps : 0 < data.epsilon) :
    fullGeneralPath sq data =
      .ok ⟨fullE data, [fullC0 data, fullC0 data], fullC0 data⟩ := by
  obtain ⟨n, hn⟩ := List.length_eq_one.mp h1
  rw [fullGeneralPath]
  have hinc : buildIncoming data.nodes data.edges =
      .ok (initIncoming data.nodes) := by
    rw [h2, buildIncoming, buildIncomingAux]
  have hids : fullKeyIds data = [n.id] := by
    rw [fullKeyIds, idsOf, hn]
    rfl
  obtain ⟨k, hk⟩ : ∃ k, data.max_iterations.toNat = k + 1 :=
    ⟨data.max_iterations.toNat - 1, by omega⟩
  have hempty : ((initIncoming data.nodes) n.id).getD [] = [] := by
    rw [initIncoming_lookup,
      if_pos ⟨n, by rw [hn]; exact List.mem_cons_self n [], rfl⟩]
    rfl
  have hupd : fullNodeUpdate sq data.lambda_ (fullE data) (fullC0 data)
      (initIncoming data.nodes) (fullC0 data) n.id = .ok (fullC0 data) := by
    rw [fullNodeUpdate, if_pos hempty]
  have hstep : fullStepNodes sq data.lambda_ (fullE data) (fullC0 data)
      (initIncoming data.nodes) [n.id] (fullC0 data) = .ok (fullC0 data) := by
    show (match fullNodeUpdate sq data.lambda_ (fullE data) (fullC0 data)
        (initIncoming data.nodes) (fullC0 data) n.id with
      | Except.error e => (Except.error e : Except PyError ScoreMap)
      | Except.ok c' => fullStepNodes sq data.lambda_ (fullE data) (fullC0 data)
          (initIncoming data.nodes) [] c') = .ok (fullC0 data)
    rw [hupd]
    rfl
  have hmc : maxChange [n.id] (fullC0 data) (fullC0 data) = 0 := by
    rw [maxChange]
    simp
  have hloop := fullLoop_converged sq data.lambda_ data.epsilon (fullE data)
    (initIncoming data.nodes) [n.id] k (fullC0 data) (fullC0 data)
    [fullC0 data] hstep (Or.inr (by rw [hmc]; exact heps))
  rw [hinc, hids, hk]
  simp only [hloop]
  rfl

/-- Counterexample to claim C9 as stated: on a single-node, zero-edge request
the early return produces a trace of length 1, but running the general
iteration loop on the same input appends one more (identical) state, so the
two results are NOT identical — their `iterations` traces differ. -/
theorem claim_C9_counterexample :
    ¬ (∀ (sq : ℚ → ℚ) (data : CredibilityPropagationRequest),
        data.nodes.length = 1 → data.edges = [] →
        get_claim_credibility sq data =
          .ok ⟨fullE data, [fullC0 data], fullC0 data⟩ ∧
        ∃ resp, fullGeneralPath sq data = .ok resp ∧
          resp.iterations = [fullC0 data] ∧
          resp.final_scores = fullC0 data) := by
  intro h
  obtain ⟨-, resp, hresp, hiter, -⟩ := h sqZero fullReqSingle (by decide) rfl
  have hgen := full_single_general sqZero fullReqSingle (by decide) rfl
    (by decide) (by norm_num [fullReqSingle])
  rw [hgen] at hresp
  cases hresp
  have hl := congrArg List.length hiter
  simp at hl

/-- Claim C9, amended: on a single-node, zero-edge request the endpoint
returns `(E, [c0], c0)` immediately; the general loop (with at least one
iteration allowed and a positive epsilon) produces the SAME `initial_evidence`
and `final_scores` but a trace of length 2 — the initial state followed by one
identical copy — rather than an identical trace. -/
theorem claim_C9 (sq : ℚ → ℚ) (data : CredibilityPropagationRequest)
    (h1 : data.nodes.length = 1) (h2 : data.edges = [])
    (hmax : 1 ≤ data.max_iterations) (heps : 0 < data.epsilon) :
    get_claim_credibility sq data =
      .ok ⟨fullE data, [fullC0 data], fullC0 data⟩ ∧
    fullGeneralPath sq data =
      .ok ⟨fullE data, [fullC0 data, fullC0 data], fullC0 data⟩ :=
  ⟨full_single_early sq data h1 h2,
    full_single_general sq data h1 h2 hmax heps⟩

/-- Witness for claim C9 at a concrete single-node request. -/
theorem claim_C9_witness :
    fullReqSingle.nodes.length = 1 ∧
    fullGeneralPath sqZero fullReqSingle =
      .ok ⟨fullE fullReqSingle, [fullC0 fullReqSingle, fullC0 fullReqSingle],
        fullC0 fullReqSingle⟩ :=
  ⟨by decide,
    (claim_C9 sqZero fullReqSingle (by decide) rfl (by decide)
      (by norm_num [fullReqSingle])).2⟩

theorem selEAux_at (rm rM : Option ℚ) (ns : List NodeModel) :
    ∀ (E0 E' : ScoreMap), (idsOf ns).Nodup → ∀ n ∈ ns, ∀ v : ℚ,
      nodeEvidenceScore rm rM n = .ok v →
      selEAux rm rM E0 ns = .ok E' → E' n.id = some v := by
  induction ns with
  | nil =>
      intro E0 E' _ n hn
      simp at hn
  | cons m ms ih =>
      intro E0 E' hnd n hn v hv h
      rw [selEAux] at h
      split at h
      · exact absurd h (by simp)
      · rename_i w hw
        rcases List.mem_cons.mp hn with rfl | hn'
        · rw [hv] at hw
          cases hw
          have hrest : ∀ p ∈ ms, p.id ≠ n.id := by
            intro p hp hpe
            rw [idsOf, List.map_cons, List.nodup_cons] at hnd
            exact hnd.1 (hpe ▸ List.mem_map_of_mem _ hp)
          rw [selEAux_untouched rm rM _ E' ms n.id h hrest,
            ScoreMap.set_apply, if_pos rfl]
        · refine ih _ E' ?_ n hn' v hv h
          rw [idsOf, List.map_cons, List.nodup_cons] at hnd
          exact hnd.2

theorem selIsolated_true_of (data : NodeCredibilityRequest) (n : NodeModel)
    (hmem : n ∈ selAffectedNodes data) (hid : n.id = data.target_node_id)
    (hout : ∀ e ∈ data.edges, e.source ≠ data.target_node_id) :
    selIsolated data = true := by
  have hany : data.edges.any (fun e => e.source == data.target_node_id) = false := by
    cases hA : data.edges.any (fun e => e.source == data.target_node_id) with
    | false => rfl
    | true =>
        obtain ⟨e, he, hbeq⟩ := List.any_eq_true.mp hA
        exact absurd (beq_iff_eq.mp hbeq) (hout e he)
  rw [selIsolated]
  cases hf : (selAffectedNodes data).find?
      (fun m => m.id == data.target_node_id) with
  | none =>
      have hnone := List.find?_eq_none.mp hf n hmem
      rw [hid] at hnone
      simp at hnone
  | some x =>
      rw [hany]
      rfl

/-- Claim C10: for a target node (present in the node set, with unique ids)
that has no outgoing edges, the selective endpoint returns the affected set
`{target}` alone, a trace of length one, and the target's clamped intrinsic
evidence score as its final score, without running any propagation iteration —
the `is_isolated` early return fires even though the BFS of
`get_affected_nodes` may have collected further dependants. -/
theorem claim_C10 (sq : ℚ → ℚ) (data : NodeCredibilityRequest)
    (hnodup : (idsOf data.nodes).Nodup)
    (n : NodeModel) (hn : n ∈ data.nodes) (hid : n.id = data.target_node_id)
    (hout : ∀ e ∈ data.edges, e.source ≠ data.target_node_id)
    (resp : NodeCredibilityResponse)
    (hrun : get_node_credibility sq data = .ok resp)
    (q : ℚ)
    (hq : nodeEvidenceScore data.evidence_min data.evidence_max n = .ok q) :
    resp.affected_nodes = {data.target_node_id} ∧
    resp.iterations = [ScoreMap.empty.set data.target_node_id q] ∧
    resp.final_scores = ScoreMap.empty.set data.target_node_id q ∧
    resp.final_scores data.target_node_id = some q := by
  have hmem : n ∈ selAffectedNodes data := by
    rw [selAffectedNodes]
    refine List.mem_filter.mpr ⟨hn, ?_⟩
    rw [hid]
    exact decide_eq_true
      (get_affected_nodes_target_mem data.target_node_id data.nodes data.edges)
  have hiso : selIsolated data = true := selIsolated_true_of data n hmem hid hout
  obtain ⟨E, hE, hcase⟩ := get_node_credibility_elim sq data resp hrun
  rcases hcase with ⟨-, hresp⟩ | ⟨hiso', -⟩
  · have hnd' : (idsOf (selAffectedNodes data)).Nodup := by
      refine List.Nodup.sublist ?_ hnodup
      rw [idsOf, idsOf, selAffectedNodes]
      exact List.Sublist.map _ (List.filter_sublist _)
    have hEt : E data.target_node_id = some q := by
      rw [← hid]
      exact selEAux_at data.evidence_min data.evidence_max
        (selAffectedNodes data) ScoreMap.empty E hnd' n hmem q hq hE
    have hm : ScoreMap.empty.set data.target_node_id ((E data.target_node_id).getD 0) =
        ScoreMap.empty.set data.target_node_id q := by
      rw [hEt, Option.getD_some]
    subst hresp
    refine ⟨rfl, by rw [hm], by rw [hm], ?_⟩
    show (ScoreMap.empty.set data.target_node_id ((E data.target_node_id).getD 0))
      data.target_node_id = some q
    rw [hm, ScoreMap.set_apply, if_pos rfl]
  · rw [hiso] at hiso'
    cases hiso'

theorem selEAux_cons (rm rM : Option ℚ) (E : ScoreMap) (n : NodeModel)
    (ns : List NodeModel) :
    selEAux rm rM E (n :: ns) =
      match nodeEvidenceScore rm rM n with
      | .error e => .error e
      | .ok v => selEAux rm rM (E.set n.id v) ns := rfl

/-- Witness for claim C10 at the spec's example node with evidence 0.6 and
0.8. -/
theorem claim_C10_witness :
    get_node_credibility sqZero selReqT =
      .ok ⟨"t", {"t"}, ScoreMap.empty.set "t" (7/10),
        [ScoreMap.empty.set "t" (7/10)], ScoreMap.empty.set "t" (7/10)⟩ ∧
    (⟨"t", {"t"}, ScoreMap.empty.set "t" (7/10),
        [ScoreMap.empty.set "t" (7/10)], ScoreMap.empty.set "t" (7/10)⟩ :
      NodeCredibilityResponse).final_scores "t" = some (7/10) := by
  have hq : nodeEvidenceScore selReqT.evidence_min selReqT.evidence_max nodeT =
      .ok (7/10) := by
    have h := nodeEvidenceScore_mean (some (-1)) (some 1) nodeT [3/5, 4/5] rfl
      (by simp) (-1) 1 rfl rfl
    show nodeEvidenceScore (some (-1)) (some 1) nodeT = .ok (7/10)
    rw [h]
    have h1 : clampQ (3/5) (-1) 1 = 3/5 := by
      rw [clampQ, min_eq_left (by norm_num), max_eq_left (by norm_num)]
    have h2 : clampQ (4/5) (-1) 1 = 4/5 := by
      rw [clampQ, min_eq_left (by norm_num), max_eq_left (by norm_num)]
    rw [List.map_cons, List.map_cons, List.map_nil, h1, h2]
    norm_num
  have hE : selEAux selReqT.evidence_min selReqT.evidence_max ScoreMap.empty
      (selAffectedNodes selReqT) = .ok (ScoreMap.empty.set "t" (7/10)) := by
    have haff : selAffectedNodes selReqT = [nodeT] := rfl
    rw [haff, selEAux_cons, hq]
    rfl
  have hrun : get_node_credibility sqZero selReqT =
      .ok ⟨"t", {"t"}, ScoreMap.empty.set "t" (7/10),
        [ScoreMap.empty.set "t" (7/10)], ScoreMap.empty.set "t" (7/10)⟩ := by
    rw [get_node_credibility, hE]
    rfl
  refine ⟨hrun, ?_⟩
  exact (claim_C10 sqZero selReqT (by decide) nodeT
    (by show nodeT ∈ ([nodeT] : List NodeModel); exact List.mem_cons_self nodeT [])
    rfl (by decide) _ hrun (7/10) hq).2.2.2

/-- Claim C5: a node with no incoming influence edges (no data edge with
`source = id`, i.e. no edge under the dependency convention through which
another node's score reaches it) keeps its initial intrinsic score in every
entry of the iteration trace of BOTH endpoints: every trace entry maps the id
to exactly what `initial_evidence` maps it to (in particular `none` when the
id carries no entry at all). -/
theorem claim_C5 (sq : ℚ → ℚ) (id : String)
    (freq : CredibilityPropagationRequest) (sreq : NodeCredibilityRequest)
    (hf : ∀ e ∈ freq.edges, e.source ≠ id)
    (hs : ∀ e ∈ sreq.edges, e.source ≠ id)
    (resp : CredibilityPropagationResponse) (resp' : NodeCredibilityResponse)
    (h1 : get_claim_credibility sq freq = .ok resp)
    (h2 : get_node_credibility sq sreq = .ok resp') :
    (∀ m ∈ resp.iterations, m id = resp.initial_evidence id) ∧
    (∀ m ∈ resp'.iterations, m id = resp'.initial_evidence id) := by
  constructor
  · obtain ⟨hEinit, hcase⟩ := get_claim_credibility_elim sq freq resp h1
    have hc0id : fullC0 freq id = fullE freq id := by
      rw [fullC0, initScores, initScoresAux_lookup, fullE_lookup]
      by_cases hmem : ∃ n ∈ freq.nodes, n.id = id
      · rw [if_pos hmem, if_pos hmem]
        rfl
      · rw [if_neg hmem, if_neg hmem]
        rfl
    intro m hm
    rw [hEinit]
    rcases hcase with ⟨hiter, -⟩ | ⟨inc, trace, hinc, htr, hiter, -⟩
    · rw [hiter, List.mem_singleton] at hm
      subst hm
      exact hc0id
    · rw [buildIncoming] at hinc
      have hidprop : ∀ j ∈ fullKeyIds freq, j = id →
          ((inc j).getD [] : List EdgeModel) = [] := by
        intro j hj hji
        subst hji
        have hmem : ∃ n ∈ freq.nodes, n.id = j := by
          have hj' := (mem_pyDedup (idsOf freq.nodes) j).mp hj
          rw [idsOf] at hj'
          obtain ⟨n, hn, hni⟩ := List.mem_map.mp hj'
          exact ⟨n, hn, hni⟩
        have hjv : inc j = some [] := by
          rw [buildIncomingAux_untouched _ inc freq.edges hinc j
            (fun e he => hf e he), initIncoming_lookup, if_pos hmem]
        rw [hjv]
        rfl
      rw [hiter] at hm
      refine fullLoop_all sq freq.lambda_ freq.epsilon (fullE freq) inc
        (fullKeyIds freq) (fun mm => mm id = fullE freq id) ?_
        freq.max_iterations.toNat (fullC0 freq) [fullC0 freq] trace hc0id ?_
        htr m hm
      · intro c c' hc hstep
        rw [fullStepNodes_untouched sq freq.lambda_ (fullE freq) c inc
          (fullKeyIds freq) c c' id hstep hidprop]
        exact hc
      · intro m' hm'
        rw [List.mem_singleton] at hm'
        subst hm'
        exact hc0id
  · obtain ⟨E, hE, hcase⟩ := get_node_credibility_elim sq sreq resp' h2
    rcases hcase with ⟨-, hresp⟩ | ⟨hiso, inc, hinc, hresp⟩
    · subst hresp
      intro m hm
      rw [List.mem_singleton] at hm
      subst hm
      rfl
    · subst hresp
      intro m hm
      show m id = E id
      by_cases hA : ∃ n ∈ selAffectedNodes sreq, n.id = id
      · obtain ⟨n, hn, hni⟩ := hA
        have hninfo := List.mem_filter.mp hn
        have hidaff : id ∈ selAffectedIds sreq := by
          have hda := of_decide_eq_true hninfo.2
          rw [hni] at hda
          exact hda
        rcases get_affected_nodes_mem sreq.target_node_id sreq.nodes
            sreq.edges id hidaff with hidt | ⟨e, he, hesrc⟩
        · have hiso' : selIsolated sreq = true :=
            selIsolated_true_of sreq n hn (hni.trans hidt)
              (fun e he hc => hs e he (hidt ▸ hc))
          rw [hiso'] at hiso
          cases hiso
        · exact absurd hesrc (hs e he)
      · have hnotin : ∀ n ∈ selAffectedNodes sreq, n.id ≠ id :=
          fun n hn hni => hA ⟨n, hn, hni⟩
        have hEid : E id = none := by
          rw [selEAux_untouched sreq.evidence_min sreq.evidence_max
            ScoreMap.empty E (selAffectedNodes sreq) id hE hnotin]
          rfl
        have hc0 : initScores (selAffectedNodes sreq) E id = none := by
          rw [initScores, initScoresAux_lookup, if_neg hA]
          rfl
        rcases selLoop_mem sq sreq.lambda_ sreq.epsilon E inc
            (selAffectedNodes sreq) sreq.max_iterations.toNat
            (initScores (selAffectedNodes sreq) E)
            [initScores (selAffectedNodes sreq) E] m hm with hm' | ⟨c', hm'⟩
        · rw [List.mem_singleton] at hm'
          subst hm'
          rw [hc0, hEid]
        · subst hm'
          show (selStepAux sq sreq.lambda_ E c' inc (selAffectedNodes sreq)
            ScoreMap.empty 0).1 id = E id
          rw [selStepAux_lookup, if_neg hA, hEid]
          rfl

theorem list_sum_le (l : List ℚ) (a : ℚ) (h : ∀ x ∈ l, x ≤ a) :
    l.sum ≤ l.length * a := by
  induction l with
  | nil => simp
  | cons x xs ih =>
      rw [List.sum_cons, List.length_cons]
      have hx := h x (List.mem_cons_self x xs)
      have hxs := ih (fun y hy => h y (List.mem_cons_of_mem _ hy))
      push_cast
      linarith

theorem list_le_sum (l : List ℚ) (a : ℚ) (h : ∀ x ∈ l, a ≤ x) :
    l.length * a ≤ l.sum := by
  induction l with
  | nil => simp
  | cons x xs ih =>
      rw [List.sum_cons, List.length_cons]
      have hx := h x (List.mem_cons_self x xs)
      have hxs := ih (fun y hy => h y (List.mem_cons_of_mem _ hy))
      push_cast
      linarith

theorem list_mean_bounds (l : List ℚ) (hl : l ≠ [])
    (hb : ∀ x ∈ l, -1 ≤ x ∧ x ≤ 1) :
    -1 ≤ l.sum / l.length ∧ l.sum / l.length ≤ 1 := by
  have hpos : (0:ℚ) < l.length := by
    exact_mod_cast List.length_pos.mpr hl
  constructor
  · rw [le_div_iff₀ hpos]
    have := list_le_sum l (-1) (fun x hx => (hb x hx).1)
    linarith
  · rw [div_le_one hpos]
    have := list_sum_le l 1 (fun x hx => (hb x hx).2)
    linarith

theorem clampEv_ok (x y : ℚ) (lo hi : Option ℚ)
    (h : clampEv x lo hi = .ok y) :
    ∃ l hb, lo = some l ∧ hi = some hb ∧ y = clampQ x l hb := by
  cases hi with
  | none => exact Except.noConfusion h
  | some hb =>
      cases lo with
      | none => exact Except.noConfusion h
      | some l =>
          cases h
          exact ⟨l, hb, rfl, rfl, rfl⟩

theorem clampList_ok_bounds (lo hi : Option ℚ) :
    ∀ (evs ys : List ℚ), clampList lo hi evs = .ok ys → ∀ x ∈ ys,
      ∃ l hb, lo = some l ∧ hi = some hb ∧ ∃ w, x = clampQ w l hb := by
  intro evs
  induction evs with
  | nil =>
      intro ys h x hx
      rw [clampList] at h
      cases h
      simp at hx
  | cons e es ih =>
      intro ys h x hx
      rw [clampList] at h
      split at h
      · exact Except.noConfusion h
      · rename_i y hy
        split at h
        · exact Except.noConfusion h
        · rename_i ys' hys'
          cases h
          obtain ⟨l, hb, hlo, hhi, hyv⟩ := clampEv_ok e y lo hi hy
          rcases List.mem_cons.mp hx with rfl | hx'
          · exact ⟨l, hb, hlo, hhi, e, hyv⟩
          · exact ih ys' hys' x hx'

theorem clampQ_bounds (x l hb : ℚ) (hl : -1 ≤ l ∧ l ≤ 1)
    (hh : -1 ≤ hb ∧ hb ≤ 1) :
    -1 ≤ clampQ x l hb ∧ clampQ x l hb ≤ 1 := by
  rw [clampQ]
  constructor
  · exact le_trans hl.1 (le_max_right _ _)
  · exact max_le (le_trans (min_le_right x hb) hh.2) hl.2

theorem nodeEvidenceScore_bounded (rm rM : Option ℚ) (n : NodeModel)
    (hbmin : ∀ b, effMin rm n = some b → -1 ≤ b ∧ b ≤ 1)
    (hbmax : ∀ b, effMax rM n = some b → -1 ≤ b ∧ b ≤ 1)
    (v : ℚ) (hv : nodeEvidenceScore rm rM n = .ok v) : -1 ≤ v ∧ v ≤ 1 := by
  rw [nodeEvidenceScore] at hv
  split at hv
  · cases hv
    norm_num
  · split at hv
    · exact Except.noConfusion hv
    · rename_i clamped hcl
      split at hv
      · rename_i hpos
        cases hv
        have hbx : ∀ x ∈ clamped, -1 ≤ x ∧ x ≤ 1 := by
          intro x hx
          obtain ⟨l, hb, hlo, hhi, w, hw⟩ :=
            clampList_ok_bounds _ _ _ _ hcl x hx
          subst hw
          exact clampQ_bounds w l hb (hbmin l hlo) (hbmax hb hhi)
        have hnil : clamped ≠ [] := by
          intro hc
          rw [hc] at hpos
          simp at hpos
        exact list_mean_bounds clamped hnil hbx
      · cases hv
        norm_num

theorem fullStepNodes_bounded (sq : ℚ → ℚ) (hsq : ∀ x, |sq x| ≤ 1) (lam : ℚ)
    (E c : ScoreMap) (inc : IncomingMap) (ids : List String)
    (hc : ∀ s q, c s = some q → -1 ≤ q ∧ q ≤ 1) :
    ∀ acc c', (∀ s q, acc s = some q → -1 ≤ q ∧ q ≤ 1) →
      fullStepNodes sq lam E c inc ids acc = .ok c' →
      ∀ s q, c' s = some q → -1 ≤ q ∧ q ≤ 1 := by
  induction ids with
  | nil =>
      intro acc c' hacc h
      rw [fullStepNodes] at h
      cases h
      exact hacc
  | cons j js ih =>
      intro acc c' hacc h
      rw [fullStepNodes] at h
      split at h
      · exact Except.noConfusion h
      · rename_i acc1 hupd
        refine ih acc1 c' ?_ h
        rw [fullNodeUpdate] at hupd
        split at hupd
        · cases hupd
          exact hacc
        · split at hupd
          · exact Except.noConfusion hupd
          · rename_i p hfold
            split at hupd <;> cases hupd
            · intro s q hsq'
              rw [ScoreMap.set_apply] at hsq'
              by_cases hsj : s = j
              · rw [if_pos hsj] at hsq'
                cases hsq'
                exact abs_le.mp (hsq _)
              · rw [if_neg hsj] at hsq'
                exact hacc s q hsq'
            · intro s q hsq'
              rw [ScoreMap.set_apply] at hsq'
              by_cases hsj : s = j
              · rw [if_pos hsj] at hsq'
                cases hsq'
                cases hcj : c j with
                | none => norm_num [Option.getD_none]
                | some w =>
                    rw [Option.getD_some]
                    exact hc j w hcj
              · rw [if_neg hsj] at hsq'
                exact hacc s q hsq'

/-- Counterexample to claim C3 as stated: with caller-supplied bounds outside
[-1, 1] the INITIAL state of the selective endpoint can already escape
[-1, 1] — a node with evidence value 3 and graph-wide bounds [0, 5] keeps the
intrinsic score 3 in every returned map (no tanh is ever applied on the
isolated-target path). -/
theorem claim_C3_counterexample :
    ¬ (∀ sq : ℚ → ℚ, (∀ x, |sq x| ≤ 1) →
        (∀ (freq : CredibilityPropagationRequest) resp,
          get_claim_credibility sq freq = .ok resp →
          ∀ m ∈ resp.iterations, ∀ s q, m s = some q → -1 ≤ q ∧ q ≤ 1) ∧
        (∀ (sreq : NodeCredibilityRequest) resp',
          get_node_credibility sq sreq = .ok resp' →
          ∀ m ∈ resp'.iterations, ∀ s q, m s = some q → -1 ≤ q ∧ q ≤ 1)) := by
  intro h
  have hbd : ∀ x : ℚ, |sqZero x| ≤ 1 := by
    intro x
    show |(0:ℚ)| ≤ 1
    norm_num
  have hq : nodeEvidenceScore selReqWide.evidence_min selReqWide.evidence_max
      nodeC3 = .ok 3 := by
    have h' := nodeEvidenceScore_mean (some 0) (some 5) nodeC3 [3] rfl
      (by simp) 0 5 rfl rfl
    show nodeEvidenceScore (some 0) (some 5) nodeC3 = .ok 3
    rw [h']
    have hcl : clampQ 3 0 5 = 3 := by
      rw [clampQ, min_eq_left (by norm_num), max_eq_left (by norm_num)]
    rw [List.map_cons, List.map_nil, hcl]
    norm_num
  have hE : selEAux selReqWide.evidence_min selReqWide.evidence_max
      ScoreMap.empty (selAffectedNodes selReqWide) =
      .ok (ScoreMap.empty.set "C" 3) := by
    have haff : selAffectedNodes selReqWide = [nodeC3] := rfl
    rw [haff, selEAux_cons, hq]
    rfl
  have hrun : get_node_credibility sqZero selReqWide =
      .ok ⟨"C", {"C"}, ScoreMap.empty.set "C" 3, [ScoreMap.empty.set "C" 3],
        ScoreMap.empty.set "C" 3⟩ := by
    rw [get_node_credibility, hE]
    rfl
  have hsc := (h sqZero hbd).2 selReqWide _ hrun (ScoreMap.empty.set "C" 3)
    (List.mem_cons_self _ _) "C" 3 (by rw [ScoreMap.set_apply, if_pos rfl])
  linarith [hsc.2]

/-- Claim C3, amended: provided the squashing function's values lie in
[-1, 1] (true of tanh), every score at every iteration of the FULL endpoint
lies in [-1, 1] (its intrinsic scores are all 0), and the same holds for the
selective endpoint provided every applicable effective evidence bound lies in
[-1, 1]; with caller-supplied bounds outside [-1, 1] the selective initial
state can escape the interval. -/
theorem claim_C3 (sq : ℚ → ℚ) (hsq : ∀ x, |sq x| ≤ 1) :
    (∀ (freq : CredibilityPropagationRequest) resp,
      get_claim_credibility sq freq = .ok resp →
      ∀ m ∈ resp.iterations, ∀ s q, m s = some q → -1 ≤ q ∧ q ≤ 1) ∧
    (∀ (sreq : NodeCredibilityRequest),
      (∀ n ∈ sreq.nodes,
        (∀ b, effMin sreq.evidence_min n = some b → -1 ≤ b ∧ b ≤ 1) ∧
        (∀ b, effMax sreq.evidence_max n = some b → -1 ≤ b ∧ b ≤ 1)) →
      ∀ resp', get_node_credibility sq sreq = .ok resp' →
      ∀ m ∈ resp'.iterations, ∀ s q, m s = some q → -1 ≤ q ∧ q ≤ 1) := by
  constructor
  · intro freq resp h1
    obtain ⟨-, hcase⟩ := get_claim_credibility_elim sq freq resp h1
    have hc0P : ∀ s q, fullC0 freq s = some q → -1 ≤ q ∧ q ≤ 1 := by
      intro s q hq
      rw [fullC0, initScores, initScoresAux_lookup] at hq
      by_cases hmem : ∃ n ∈ freq.nodes, n.id = s
      · rw [if_pos hmem] at hq
        cases hq
        rw [fullE_lookup, if_pos hmem, Option.getD_some]
        norm_num
      · rw [if_neg hmem] at hq
        exact Option.noConfusion hq
    intro m hm
    rcases hcase with ⟨hiter, -⟩ | ⟨inc, trace, hinc, htr, hiter, -⟩
    · rw [hiter, List.mem_singleton] at hm
      subst hm
      exact hc0P
    · rw [hiter] at hm
      exact fullLoop_all sq freq.lambda_ freq.epsilon (fullE freq) inc
        (fullKeyIds freq)
        (fun mm => ∀ s q, mm s = some q → -1 ≤ q ∧ q ≤ 1)
        (fun c c' hcb hstep => fullStepNodes_bounded sq hsq freq.lambda_
          (fullE freq) c inc (fullKeyIds freq) hcb c c' hcb hstep)
        freq.max_iterations.toNat (fullC0 freq) [fullC0 freq] trace hc0P
        (fun m' hm' => by
          rw [List.mem_singleton] at hm'
          subst hm'
          exact hc0P)
        htr m hm
  · intro sreq hb resp' h2
    obtain ⟨E, hE, hcase⟩ := get_node_credibility_elim sq sreq resp' h2
    have hEvals : ∀ s v, E s = some v → -1 ≤ v ∧ v ≤ 1 := by
      refine selEAux_values sreq.evidence_min sreq.evidence_max ScoreMap.empty
        E (selAffectedNodes sreq) (fun v => -1 ≤ v ∧ v ≤ 1) hE ?_ ?_
      · intro s v hv
        exact Option.noConfusion hv
      · intro n hn v hv
        have hn' : n ∈ sreq.nodes := (List.mem_filter.mp hn).1
        exact nodeEvidenceScore_bounded sreq.evidence_min sreq.evidence_max n
          (hb n hn').1 (hb n hn').2 v hv
    rcases hcase with ⟨-, hresp⟩ | ⟨-, inc, hinc, hresp⟩
    · subst hresp
      intro m hm
      rw [List.mem_singleton] at hm
      subst hm
      intro s q hsq'
      rw [ScoreMap.set_apply] at hsq'
      by_cases hst : s = sreq.target_node_id
      · rw [if_pos hst] at hsq'
        cases hsq'
        cases hEt : E sreq.target_node_id with
        | none => norm_num [Option.getD_none]
        | some w =>
            rw [Option.getD_some]
            exact hEvals _ w hEt
      · rw [if_neg hst] at hsq'
        exact Option.noConfusion hsq'
    · subst hresp
      have hc0P : ∀ s q, initScores (selAffectedNodes sreq) E s = some q →
          -1 ≤ q ∧ q ≤ 1 := by
        intro s q hq
        rw [initScores, initScoresAux_lookup] at hq
        by_cases hmem : ∃ n ∈ selAffectedNodes sreq, n.id = s
        · rw [if_pos hmem] at hq
          cases hq
          cases hEs : E s with
          | none => norm_num [Option.getD_none]
          | some w =>
              rw [Option.getD_some]
              exact hEvals s w hEs
        · rw [if_neg hmem] at hq
          exact Option.noConfusion hq
      have hstepP : ∀ c, (∀ s q, c s = some q → -1 ≤ q ∧ q ≤ 1) →
          ∀ s q, (selStep sq sreq.lambda_ E inc (selAffectedNodes sreq) c).1 s =
            some q → -1 ≤ q ∧ q ≤ 1 := by
        intro c _ s q hq
        rw [selStep, selStepAux_lookup] at hq
        by_cases hmem : ∃ n ∈ selAffectedNodes sreq, n.id = s
        · rw [if_pos hmem] at hq
          cases hq
          exact abs_le.mp (hsq _)
        · rw [if_neg hmem] at hq
          exact Option.noConfusion hq
      intro m hm
      exact (selLoop_all sq sreq.lambda_ sreq.epsilon E inc
        (selAffectedNodes sreq)
        (fun mm => ∀ s q, mm s = some q → -1 ≤ q ∧ q ≤ 1)
        hstepP sreq.max_iterations.toNat
        (initScores (selAffectedNodes sreq) E)
        [initScores (selAffectedNodes sreq) E] hc0P
        (fun m' hm' => by
          rw [List.mem_singleton] at hm'
          subst hm'
          exact hc0P)).1 m hm

/-- Witness for claim C3 at a concrete request and a concrete trace entry. -/
theorem claim_C3_witness :
    |sqZero 0| ≤ 1 ∧ ((-1:ℚ) ≤ 0 ∧ (0:ℚ) ≤ 1) := by
  have hsq : ∀ x : ℚ, |sqZero x| ≤ 1 := by
    intro x
    show |(0:ℚ)| ≤ 1
    norm_num
  have h1 : get_claim_credibility sqZero fullReqSingle =
      .ok ⟨fullE fullReqSingle, [fullC0 fullReqSingle], fullC0 fullReqSingle⟩ := rfl
  refine ⟨hsq 0, ?_⟩
  exact (claim_C3 sqZero hsq).1 fullReqSingle _ h1 (fullC0 fullReqSingle)
    (List.mem_cons_self _ _) "B" 0 rfl

/-- Witness for claim C5: a single-node full request and a single-node
selective request, where the node has no incoming edges. -/
theorem claim_C5_witness :
    (∀ e ∈ fullReqSingle.edges, e.source ≠ "B") ∧
    fullC0 fullReqSingle "B" = fullE fullReqSingle "B" := by
  have h1 : get_claim_credibility sqZero fullReqSingle =
      .ok ⟨fullE fullReqSingle, [fullC0 fullReqSingle], fullC0 fullReqSingle⟩ := rfl
  have h2 : get_node_credibility sqZero selReqA =
      .ok ⟨"A", {"A"}, ScoreMap.empty.set "A" 0, [ScoreMap.empty.set "A" 0],
        ScoreMap.empty.set "A" 0⟩ := rfl
  have h := claim_C5 sqZero "B" fullReqSingle selReqA (by decide) (by decide)
    _ _ h1 h2
  exact ⟨by decide, h.1 (fullC0 fullReqSingle) (List.mem_cons_self _ _)⟩

theorem dropZeroEdges_cons_zero (e : EdgeModel) (es : List EdgeModel)
    (hw : e.weight = some 0) : dropZeroEdges (e :: es) = dropZeroEdges es := by
  rw [dropZeroEdges, List.filter_cons, if_neg (by simp [hw])]
  rfl

theorem dropZeroEdges_cons_ne (e : EdgeModel) (es : List EdgeModel)
    (hw : ¬ e.weight = some 0) :
    dropZeroEdges (e :: es) = e :: dropZeroEdges es := by
  rw [dropZeroEdges, List.filter_cons, if_pos (by simp [hw])]
  rfl

theorem dropZeroEdges_append (l1 l2 : List EdgeModel) :
    dropZeroEdges (l1 ++ l2) = dropZeroEdges l1 ++ dropZeroEdges l2 := by
  rw [dropZeroEdges, dropZeroEdges, dropZeroEdges, List.filter_append]

theorem dropZeroEdges_singleton_zero (e : EdgeModel) (hw : e.weight = some 0) :
    dropZeroEdges [e] = [] := by
  rw [dropZeroEdges_cons_zero e [] hw]
  rfl

theorem dropZeroEdges_singleton_ne (e : EdgeModel) (hw : ¬ e.weight = some 0) :
    dropZeroEdges [e] = [e] := by
  rw [dropZeroEdges_cons_ne e [] hw]
  rfl

theorem dropZeroEdges_all_zero (l : List EdgeModel) (h : dropZeroEdges l = []) :
    ∀ e ∈ l, e.weight = some 0 := by
  induction l with
  | nil =>
      intro e he
      cases he
  | cons a l ih =>
      intro e he
      by_cases hw : a.weight = some 0
      · rw [dropZeroEdges_cons_zero a l hw] at h
        cases he with
        | head => exact hw
        | tail _ hm => exact ih h e hm
      · rw [dropZeroEdges_cons_ne a l hw] at h
        cases h

theorem fullContribFold_allzero (c : ScoreMap) :
    ∀ (es : List EdgeModel) (acc : ℚ × Bool),
      (∀ e ∈ es, e.weight = some 0) → fullContribFold c es acc = .ok acc := by
  intro es
  induction es with
  | nil => intro acc _; rfl
  | cons e es ih =>
      intro acc h
      rw [fullContribFold, if_pos (h e (List.mem_cons_self e es))]
      exact ih acc (fun f hf => h f (List.mem_cons_of_mem e hf))

theorem fullContribFold_filter (c : ScoreMap) :
    ∀ (es : List EdgeModel) (acc : ℚ × Bool),
      fullContribFold c (dropZeroEdges es) acc = fullContribFold c es acc := by
  intro es
  induction es with
  | nil => intro acc; rfl
  | cons e es ih =>
      intro acc
      by_cases hw : e.weight = some 0
      · rw [dropZeroEdges_cons_zero e es hw, ih, fullContribFold, if_pos hw]
      · rw [dropZeroEdges_cons_ne e es hw, fullContribFold, if_neg hw,
          fullContribFold, if_neg hw]
        cases ht : c e.target with
        | none => rfl
        | some s => exact ih _

theorem fullNodeUpdate_ne (sq : ℚ → ℚ) (lam : ℚ) (E c : ScoreMap)
    (inc : IncomingMap) (acc acc1 : ScoreMap) (j s : String)
    (h : fullNodeUpdate sq lam E c inc acc j = .ok acc1) (hs : s ≠ j) :
    acc1 s = acc s := by
  rw [fullNodeUpdate] at h
  by_cases h0 : (inc j).getD [] = []
  · rw [if_pos h0] at h
    cases h
    rfl
  · rw [if_neg h0] at h
    cases hf : fullContribFold c ((inc j).getD []) (0, false) with
    | error e =>
        rw [hf] at h
        exact Except.noConfusion h
    | ok p =>
        simp only [hf] at h
        by_cases hm : p.2 = true
        · rw [if_pos hm] at h
          cases h
          rw [ScoreMap.set_apply, if_neg hs]
        · rw [if_neg hm] at h
          cases h
          rw [ScoreMap.set_apply, if_neg hs]

theorem fullNodeUpdate_isSome (sq : ℚ → ℚ) (lam : ℚ) (E c : ScoreMap)
    (inc : IncomingMap) (acc acc1 : ScoreMap) (j : String)
    (h : fullNodeUpdate sq lam E c inc acc j = .ok acc1) (s : String)
    (hs : (acc s).isSome = true) : (acc1 s).isSome = true := by
  rw [fullNodeUpdate] at h
  by_cases h0 : (inc j).getD [] = []
  · rw [if_pos h0] at h
    cases h
    exact hs
  · rw [if_neg h0] at h
    cases hf : fullContribFold c ((inc j).getD []) (0, false) with
    | error e =>
        rw [hf] at h
        exact Except.noConfusion h
    | ok p =>
        simp only [hf] at h
        by_cases hm : p.2 = true
        · rw [if_pos hm] at h
          cases h
          rw [ScoreMap.set_apply]
          by_cases hsj : s = j
          · rw [if_pos hsj]
            rfl
          · rw [if_neg hsj]
            exact hs
        · rw [if_neg hm] at h
          cases h
          rw [ScoreMap.set_apply]
          by_cases hsj : s = j
          · rw [if_pos hsj]
            rfl
          · rw [if_neg hsj]
            exact hs

theorem fullNodeUpdate_filter (sq : ℚ → ℚ) (lam : ℚ) (E c : ScoreMap)
    (inc₁ inc₂ : IncomingMap)
    (hR : ∀ s, inc₂ s = (inc₁ s).map dropZeroEdges)
    (acc : ScoreMap) (j : String) (hacc : acc j = c j)
    (hcs : (c j).isSome = true) :
    fullNodeUpdate sq lam E c inc₂ acc j = fullNodeUpdate sq lam E c inc₁ acc j := by
  rw [fullNodeUpdate, fullNodeUpdate]
  cases h1 : inc₁ j with
  | none =>
      have h2 : inc₂ j = none := by rw [hR j, h1]; rfl
      rw [h2]
  | some l1 =>
      have h2 : inc₂ j = some (dropZeroEdges l1) := by rw [hR j, h1]; rfl
      rw [h2]
      simp only [Option.getD_some]
      by_cases hl2 : dropZeroEdges l1 = []
      · rw [if_pos hl2]
        by_cases hl1 : l1 = []
        · rw [if_pos hl1]
        · rw [if_neg hl1]
          have hz := dropZeroEdges_all_zero l1 hl2
          simp only [fullContribFold_allzero c l1 (0, false) hz]
          rw [if_neg (by simp)]
          obtain ⟨v, hv⟩ := Option.isSome_iff_exists.mp hcs
          rw [hv, Option.getD_some, ScoreMap.set_eq_self acc j v (by rw [hacc, hv])]
      · rw [if_neg hl2]
        have hl1 : ¬ l1 = [] := by
          intro hh
          rw [hh] at hl2
          exact hl2 rfl
        rw [if_neg hl1, fullContribFold_filter c l1]

theorem fullStepNodes_filter (sq : ℚ → ℚ) (lam : ℚ) (E c : ScoreMap)
    (inc₁ inc₂ : IncomingMap)
    (hR : ∀ s, inc₂ s = (inc₁ s).map dropZeroEdges) :
    ∀ (ids : List String) (acc : ScoreMap), ids.Nodup →
      (∀ j ∈ ids, acc j = c j) → (∀ j ∈ ids, (c j).isSome = true) →
      fullStepNodes sq lam E c inc₂ ids acc =
        fullStepNodes sq lam E c inc₁ ids acc := by
  intro ids
  induction ids with
  | nil => intro acc _ _ _; rfl
  | cons j js ih =>
      intro acc hnd hacc hcs
      rw [fullStepNodes, fullStepNodes,
        fullNodeUpdate_filter sq lam E c inc₁ inc₂ hR acc j
          (hacc j (List.mem_cons_self j js)) (hcs j (List.mem_cons_self j js))]
      cases hu : fullNodeUpdate sq lam E c inc₁ acc j with
      | error e => rfl
      | ok acc1 =>
          have hj : j ∉ js := (List.nodup_cons.mp hnd).1
          exact ih acc1 (List.nodup_cons.mp hnd).2
            (fun j' hj' => by
              rw [fullNodeUpdate_ne sq lam E c inc₁ acc acc1 j j' hu
                (fun he => hj (he ▸ hj'))]
              exact hacc j' (List.mem_cons_of_mem j hj'))
            (fun j' hj' => hcs j' (List.mem_cons_of_mem j hj'))

theorem fullStepNodes_isSome (sq : ℚ → ℚ) (lam : ℚ) (E c : ScoreMap)
    (inc : IncomingMap) :
    ∀ (ids : List String) (acc c' : ScoreMap),
      fullStepNodes sq lam E c inc ids acc = .ok c' →
      ∀ s, (acc s).isSome = true → (c' s).isSome = true := by
  intro ids
  induction ids with
  | nil =>
      intro acc c' h s hs
      rw [fullStepNodes] at h
      cases h
      exact hs
  | cons j js ih =>
      intro acc c' h s hs
      rw [fullStepNodes] at h
      cases hu : fullNodeUpdate sq lam E c inc acc j with
      | error e =>
          rw [hu] at h
          exact Except.noConfusion h
      | ok acc1 =>
          rw [hu] at h
          exact ih acc1 c' h s (fullNodeUpdate_isSome sq lam E c inc acc acc1 j hu s hs)

theorem fullLoop_filter (sq : ℚ → ℚ) (lam eps : ℚ) (E : ScoreMap)
    (inc₁ inc₂ : IncomingMap)
    (hR : ∀ s, inc₂ s = (inc₁ s).map dropZeroEdges)
    (ids : List String) (hnd : ids.Nodup) :
    ∀ (fuel : ℕ) (c : ScoreMap) (tr : List ScoreMap),
      (∀ j ∈ ids, (c j).isSome = true) →
      fullLoop sq lam eps E inc₂ ids fuel c tr =
        fullLoop sq lam eps E inc₁ ids fuel c tr := by
  intro fuel
  induction fuel with
  | zero => intro c tr _; rfl
  | succ n ih =>
      intro c tr hcs
      rw [fullLoop, fullLoop,
        fullStepNodes_filter sq lam E c inc₁ inc₂ hR ids c hnd (fun j _ => rfl) hcs]
      cases hstep : fullStepNodes sq lam E c inc₁ ids c with
      | error e => rfl
      | ok c_new =>
          show (if ids = [] ∨ maxChange ids c_new c < eps then .ok (tr ++ [c_new])
              else fullLoop sq lam eps E inc₂ ids n c_new (tr ++ [c_new])) =
            (if ids = [] ∨ maxChange ids c_new c < eps then .ok (tr ++ [c_new])
              else fullLoop sq lam eps E inc₁ ids n c_new (tr ++ [c_new]))
          by_cases hconv : ids = [] ∨ maxChange ids c_new c < eps
          · rw [if_pos hconv, if_pos hconv]
          · rw [if_neg hconv, if_neg hconv]
            exact ih c_new (tr ++ [c_new])
              (fun j hj =>
                fullStepNodes_isSome sq lam E c inc₁ ids c c_new hstep j (hcs j hj))

theorem buildIncomingAux_filter :
    ∀ (es : List EdgeModel) (m₁ m₂ : IncomingMap),
      (∀ e ∈ es, (m₁ e.source).isSome = true) →
      (∀ s, m₂ s = (m₁ s).map dropZeroEdges) →
      ∃ inc₁ inc₂, buildIncomingAux m₁ es = .ok inc₁ ∧
        buildIncomingAux m₂ (dropZeroEdges es) = .ok inc₂ ∧
        ∀ s, inc₂ s = (inc₁ s).map dropZeroEdges := by
  intro es
  induction es with
  | nil =>
      intro m₁ m₂ _ hR
      exact ⟨m₁, m₂, rfl, rfl, hR⟩
  | cons e es ih =>
      intro m₁ m₂ hsrc hR
      obtain ⟨l1, hl1⟩ := Option.isSome_iff_exists.mp (hsrc e (List.mem_cons_self e es))
      have hsrc' : ∀ e' ∈ es,
          ((fun s => if s = e.source then some (l1 ++ [e]) else m₁ s) e'.source).isSome
            = true := by
        intro e' he'
        show (if e'.source = e.source then some (l1 ++ [e]) else m₁ e'.source).isSome
          = true
        by_cases hs : e'.source = e.source
        · rw [if_pos hs]
          rfl
        · rw [if_neg hs]
          exact hsrc e' (List.mem_cons_of_mem e he')
      by_cases hw : e.weight = some 0
      · have hR' : ∀ s, m₂ s =
            (if s = e.source then some (l1 ++ [e]) else m₁ s).map dropZeroEdges := by
          intro s
          by_cases hs : s = e.source
          · rw [hs, if_pos rfl, hR e.source, hl1]
            show some (dropZeroEdges l1) = some (dropZeroEdges (l1 ++ [e]))
            rw [dropZeroEdges_append, dropZeroEdges_singleton_zero e hw,
              List.append_nil]
          · rw [if_neg hs]
            exact hR s
        obtain ⟨inc₁, inc₂, h1, h2, hRR⟩ :=
          ih (fun s => if s = e.source then some (l1 ++ [e]) else m₁ s) m₂ hsrc' hR'
        refine ⟨inc₁, inc₂, ?_, ?_, hRR⟩
        · rw [buildIncomingAux, hl1]
          exact h1
        · rw [dropZeroEdges_cons_zero e es hw]
          exact h2
      · have h2m : m₂ e.source = some (dropZeroEdges l1) := by
          rw [hR e.source, hl1]
          rfl
        have hR' : ∀ s,
            (if s = e.source then some (dropZeroEdges l1 ++ [e]) else m₂ s) =
            (if s = e.source then some (l1 ++ [e]) else m₁ s).map dropZeroEdges := by
          intro s
          by_cases hs : s = e.source
          · rw [if_pos hs, if_pos hs]
            show some (dropZeroEdges l1 ++ [e]) = some (dropZeroEdges (l1 ++ [e]))
            rw [dropZeroEdges_append, dropZeroEdges_singleton_ne e hw]
          · rw [if_neg hs, if_neg hs]
            exact hR s
        obtain ⟨inc₁, inc₂, h1, h2, hRR⟩ :=
          ih (fun s => if s = e.source then some (l1 ++ [e]) else m₁ s)
            (fun s => if s = e.source then some (dropZeroEdges l1 ++ [e]) else m₂ s)
            hsrc' hR'
        refine ⟨inc₁, inc₂, ?_, ?_, hRR⟩
        · rw [buildIncomingAux, hl1]
          exact h1
        · rw [dropZeroEdges_cons_ne e es hw, buildIncomingAux, h2m]
          exact h2

theorem fullGeneralPath_filter (sq : ℚ → ℚ)
    (data data' : CredibilityPropagationRequest)
    (hnodes : data'.nodes = data.nodes)
    (hedges : data'.edges = dropZeroEdges data.edges)
    (hlam : data'.lambda_ = data.lambda_)
    (hmax : data'.max_iterations = data.max_iterations)
    (heps : data'.epsilon = data.epsilon)
    (hemin : data'.evidence_min = data.evidence_min)
    (hemax : data'.evidence_max = data.evidence_max)
    (hsrc : ∀ e ∈ data.edges, ∃ nn ∈ data.nodes, nn.id = e.source) :
    fullGeneralPath sq data' = fullGeneralPath sq data := by
  have hE : fullE data' = fullE data := by
    rw [fullE, fullE, hemin, hemax, hnodes]
  have hC0 : fullC0 data' = fullC0 data := by
    rw [fullC0, fullC0, hE, hnodes]
  have hK : fullKeyIds data' = fullKeyIds data := by
    rw [fullKeyIds, fullKeyIds, hnodes]
  have hsrc0 : ∀ e ∈ data.edges, ((initIncoming data.nodes) e.source).isSome = true := by
    intro e he
    rw [initIncoming_lookup, if_pos (hsrc e he)]
    rfl
  have hR0 : ∀ s, (initIncoming data.nodes) s =
      ((initIncoming data.nodes) s).map dropZeroEdges := by
    intro s
    rw [initIncoming_lookup]
    by_cases h : ∃ n ∈ data.nodes, n.id = s
    · rw [if_pos h]
      rfl
    · rw [if_neg h]
      rfl
  obtain ⟨inc₁, inc₂, h1, h2, hR⟩ :=
    buildIncomingAux_filter data.edges (initIncoming data.nodes)
      (initIncoming data.nodes) hsrc0 hR0
  have hcs0 : ∀ j ∈ fullKeyIds data, ((fullC0 data) j).isSome = true := by
    intro j hj
    have hj' := (mem_pyDedup (idsOf data.nodes) j).mp hj
    rw [idsOf] at hj'
    obtain ⟨nn, hnn, hni⟩ := List.mem_map.mp hj'
    rw [fullC0, initScores, initScoresAux_lookup, if_pos ⟨nn, hnn, hni⟩]
    rfl
  rw [fullGeneralPath, fullGeneralPath, buildIncoming, buildIncoming,
    hE, hC0, hK, hnodes, hedges, hlam, heps, hmax]
  simp only [h1, h2]
  rw [fullLoop_filter sq data.lambda_ data.epsilon (fullE data) inc₁ inc₂ hR
    (fullKeyIds data) (pyDedup_nodup (idsOf data.nodes)) data.max_iterations.toNat
    (fullC0 data) [fullC0 data] hcs0]

/-- Claim C6, amended: in the FULL-graph endpoint, removing the edges of
weight exactly 0.0 never changes the returned result, for every graph with
node count other than 1 whose edge sources are all present in the node set
(a dangling zero-weight SOURCE makes the original run raise `KeyError` while
the filtered run does not, and a single-node graph takes the early return
exactly when its edge list is empty).  The selective endpoint does NOT enjoy
this property (see the counterexample): `edge.weight or 1.0` coerces a
present zero weight to 1.0, and a zero-weight edge also changes the
`is_isolated` test. -/
theorem claim_C6 (sq : ℚ → ℚ) (data : CredibilityPropagationRequest)
    (hn : data.nodes.length ≠ 1)
    (hsrc : ∀ e ∈ data.edges, ∃ nn ∈ data.nodes, nn.id = e.source) :
    get_claim_credibility sq data = get_claim_credibility sq (dropZeroRequest data) := by
  rw [get_claim_credibility, get_claim_credibility]
  by_cases h0 : data.nodes.length = 0
  · rw [if_pos h0, if_pos (show (dropZeroRequest data).nodes.length = 0 from h0)]
    rfl
  · rw [if_neg h0, if_neg (show ¬ (dropZeroRequest data).nodes.length = 0 from h0),
      if_neg (show ¬ (data.nodes.length = 1 ∧ data.edges.length = 0) from
        fun hc => hn hc.1),
      if_neg (show ¬ ((dropZeroRequest data).nodes.length = 1 ∧
        (dropZeroRequest data).edges.length = 0) from fun hc => hn hc.1)]
    exact (fullGeneralPath_filter sq data (dropZeroRequest data)
      rfl rfl rfl rfl rfl rfl rfl hsrc).symm

/-- Witness for claim C6: a concrete two-node request with one (nonzero)
edge. -/
theorem claim_C6_witness :
    fullReqMaxZero.nodes.length ≠ 1 ∧
      get_claim_credibility sqZero fullReqMaxZero =
        get_claim_credibility sqZero (dropZeroRequest fullReqMaxZero) :=
  ⟨by decide, claim_C6 sqZero fullReqMaxZero (by decide) (by decide)⟩

theorem selLoop_one (sq : ℚ → ℚ) (lam eps : ℚ) (E : ScoreMap)
    (incoming : SelIncoming) (ans : List NodeModel) (c : ScoreMap)
    (tr : List ScoreMap) :
    selLoop sq lam eps E incoming ans (0 + 1) c tr =
      (tr ++ [(selStep sq lam E incoming ans c).1],
        (selStep sq lam E incoming ans c).1) := by
  simp only [selLoop]
  split <;> rfl

/-- Counterexample to claim C6 as stated ("in either endpoint"): in the
SELECTIVE endpoint a zero-weight edge changes the returned result.  With
nodes A, B, the single zero-weight edge `B -> A` and target B, the target is
not isolated (it has an outgoing edge), so one iteration runs and (with the
squashing function `fun _ => 0`) drives B's score from 1 to 0 with a trace of
length 2; with the edge removed, B is isolated and the endpoint returns its
intrinsic score 1 with a trace of length 1. -/
theorem claim_C6_counterexample :
    ¬ (∀ (sq : ℚ → ℚ) (freq : CredibilityPropagationRequest)
        (sreq : NodeCredibilityRequest),
        get_claim_credibility sq freq = get_claim_credibility sq (dropZeroRequest freq) ∧
        get_node_credibility sq sreq = get_node_credibility sq (dropZeroSelRequest sreq)) := by
  intro h
  have hpair := (h sqZero fullReqSingle selReqZeroEdge).2
  have hqB : nodeEvidenceScore selReqZeroRemoved.evidence_min
      selReqZeroRemoved.evidence_max nodeB = .ok 1 := by
    show nodeEvidenceScore (some 0) (some 1) nodeB = .ok 1
    have hm := nodeEvidenceScore_mean (some 0) (some 1) nodeB [1] rfl (by simp)
      0 1 rfl rfl
    rw [hm]
    have h1 : clampQ 1 0 1 = 1 := by
      rw [clampQ, min_eq_left (by norm_num), max_eq_left (by norm_num)]
    rw [List.map_cons, List.map_nil, h1]
    norm_num
  have hER : selEAux selReqZeroRemoved.evidence_min selReqZeroRemoved.evidence_max
      ScoreMap.empty (selAffectedNodes selReqZeroRemoved) =
      .ok (ScoreMap.empty.set "B" 1) := by
    have haff : selAffectedNodes selReqZeroRemoved = [nodeB] := rfl
    rw [haff, selEAux_cons, hqB]
    rfl
  have hrunR : get_node_credibility sqZero selReqZeroRemoved =
      .ok ⟨"B", {"B"}, ScoreMap.empty.set "B" 1,
        [ScoreMap.empty.set "B" 1], ScoreMap.empty.set "B" 1⟩ := by
    rw [get_node_credibility, hER]
    rfl
  have hqE : nodeEvidenceScore selReqZeroEdge.evidence_min
      selReqZeroEdge.evidence_max nodeB = .ok 1 := hqB
  have hEE : selEAux selReqZeroEdge.evidence_min selReqZeroEdge.evidence_max
      ScoreMap.empty (selAffectedNodes selReqZeroEdge) =
      .ok (ScoreMap.empty.set "B" 1) := by
    have haff : selAffectedNodes selReqZeroEdge = [nodeB] := rfl
    rw [haff, selEAux_cons, hqE]
    rfl
  have hiso : selIsolated selReqZeroEdge = false := rfl
  have hincE : selIncoming (selAffectedEdges selReqZeroEdge) =
      .ok (fun _ => none) := rfl
  have hfuel : selReqZeroEdge.max_iterations.toNat = 0 + 1 := rfl
  have hloop := selLoop_one sqZero selReqZeroEdge.lambda_ selReqZeroEdge.epsilon
    (ScoreMap.empty.set "B" 1) (fun _ => none) (selAffectedNodes selReqZeroEdge)
    (initScores (selAffectedNodes selReqZeroEdge) (ScoreMap.empty.set "B" 1))
    [initScores (selAffectedNodes selReqZeroEdge) (ScoreMap.empty.set "B" 1)]
  have hrunE : get_node_credibility sqZero selReqZeroEdge =
      .ok ⟨"B", selAffectedIds selReqZeroEdge, ScoreMap.empty.set "B" 1,
        [initScores (selAffectedNodes selReqZeroEdge) (ScoreMap.empty.set "B" 1),
          (selStep sqZero selReqZeroEdge.lambda_ (ScoreMap.empty.set "B" 1)
            (fun _ => none) (selAffectedNodes selReqZeroEdge)
            (initScores (selAffectedNodes selReqZeroEdge)
              (ScoreMap.empty.set "B" 1))).1],
        (selStep sqZero selReqZeroEdge.lambda_ (ScoreMap.empty.set "B" 1)
          (fun _ => none) (selAffectedNodes selReqZeroEdge)
          (initScores (selAffectedNodes selReqZeroEdge)
            (ScoreMap.empty.set "B" 1))).1⟩ := by
    rw [get_node_credibility]
    simp only [hEE, hiso, hincE]
    rw [hfuel, hloop]
    rfl
  have hdropE : dropZeroSelRequest selReqZeroEdge = selReqZeroRemoved := by
    rw [dropZeroSelRequest,
      show selReqZeroEdge.edges = [(⟨"B", "A", some 0⟩ : EdgeModel)] from rfl,
      dropZeroEdges_singleton_zero (⟨"B", "A", some 0⟩ : EdgeModel) rfl]
    rfl
  rw [hrunE, hdropE, hrunR, Except.ok.injEq] at hpair
  have h01 : (some (0 : ℚ)) = some (1 : ℚ) :=
    congrArg (fun r : NodeCredibilityResponse => r.final_scores "B") hpair
  have h02 : (0 : ℚ) = 1 := Option.some.inj h01
  norm_num at h02

theorem fullEdgeContribution_zero (w : ℚ) : fullEdgeContribution w 0 = 0 := by
  rw [fullEdgeContribution]
  by_cases h : 0 < w
  · rw [if_pos h, mul_zero]
  · rw [if_neg h, abs_zero, mul_zero, neg_zero]

theorem fullContribFold_meaningless (c : ScoreMap) :
    ∀ (es : List EdgeModel),
      (∀ e ∈ es, e.weight = some 0 ∨ c e.target = some 0) →
      ∀ (t : ℚ), fullContribFold c es (t, false) = .ok (t, false) := by
  intro es
  induction es with
  | nil => intro _ t; rfl
  | cons e es ih =>
      intro h t
      by_cases hw : e.weight = some 0
      · rw [fullContribFold, if_pos hw]
        exact ih (fun f hf => h f (List.mem_cons_of_mem e hf)) t
      · have hct : c e.target = some 0 := by
          rcases h e (List.mem_cons_self e es) with h' | h'
          · exact absurd h' hw
          · exact h'
        rw [fullContribFold, if_neg hw, hct]
        show fullContribFold c es
          (t + fullEdgeContribution (e.weight.getD 1) 0,
            false || decide ((1 : ℚ)/1000 < |fullEdgeContribution (e.weight.getD 1) 0|)) =
          .ok (t, false)
        rw [fullEdgeContribution_zero, abs_zero, add_zero,
          show decide ((1 : ℚ)/1000 < (0 : ℚ)) = false from decide_eq_false (by norm_num),
          Bool.or_false]
        exact ih (fun f hf => h f (List.mem_cons_of_mem e hf)) t

theorem fullStepNodes_allzero (sq : ℚ → ℚ) (lam : ℚ) (E c : ScoreMap)
    (inc : IncomingMap) (ns : List NodeModel)
    (hc : ∀ s, c s = if ∃ n ∈ ns, n.id = s then some 0 else none)
    (hedges : ∀ s, ∀ e ∈ (inc s).getD [],
      e.weight = some 0 ∨ ∃ n ∈ ns, n.id = e.target) :
    ∀ (ids : List String), (∀ j ∈ ids, ∃ n ∈ ns, n.id = j) →
      ∀ (acc c' : ScoreMap),
        (∀ s, acc s = if ∃ n ∈ ns, n.id = s then some 0 else none) →
        fullStepNodes sq lam E c inc ids acc = .ok c' →
        ∀ s, c' s = if ∃ n ∈ ns, n.id = s then some 0 else none := by
  intro ids
  induction ids with
  | nil =>
      intro _ acc c' hacc h
      rw [fullStepNodes] at h
      cases h
      exact hacc
  | cons j ids ih =>
      intro hids acc c' hacc h
      rw [fullStepNodes] at h
      split at h
      · exact absurd h (by simp)
      · rename_i acc1 hu
        have hacc1 : ∀ s, acc1 s = if ∃ n ∈ ns, n.id = s then some 0 else none := by
          rw [fullNodeUpdate] at hu
          by_cases h0 : (inc j).getD [] = []
          · rw [if_pos h0] at hu
            cases hu
            exact hacc
          · rw [if_neg h0] at hu
            have hfold : fullContribFold c ((inc j).getD []) (0, false) =
                .ok (0, false) := by
              refine fullContribFold_meaningless c ((inc j).getD []) ?_ 0
              intro e he
              rcases hedges j e he with hw | hvt
              · exact Or.inl hw
              · refine Or.inr ?_
                rw [hc e.target, if_pos hvt]
            simp only [hfold] at hu
            rw [if_neg (by simp)] at hu
            cases hu
            intro s
            rw [ScoreMap.set_apply]
            by_cases hsj : s = j
            · rw [if_pos hsj, hsj]
              obtain ⟨n, hn, hni⟩ := hids j (List.mem_cons_self j ids)
              rw [if_pos ⟨n, hn, hni⟩, hc j, if_pos ⟨n, hn, hni⟩]
              rfl
            · rw [if_neg hsj]
              exact hacc s
        exact ih (fun j' hj' => hids j' (List.mem_cons_of_mem j hj')) acc1 c' hacc1 h

theorem full_allzero (sq : ℚ → ℚ) (data : CredibilityPropagationRequest)
    (htv : ∀ e ∈ data.edges, ∃ n ∈ data.nodes, n.id = e.target)
    (fresp : CredibilityPropagationResponse)
    (hf : get_claim_credibility sq data = .ok fresp) :
    ∀ s, (∃ n ∈ data.nodes, n.id = s) → fresp.final_scores s = some 0 := by
  obtain ⟨hEi, hcase⟩ := get_claim_credibility_elim sq data fresp hf
  have hc0 : ∀ s, (fullC0 data) s =
      if ∃ n ∈ data.nodes, n.id = s then some 0 else none := by
    intro s
    rw [fullC0, initScores, initScoresAux_lookup]
    by_cases h : ∃ n ∈ data.nodes, n.id = s
    · rw [if_pos h, if_pos h, fullE_lookup, if_pos h]
      rfl
    · rw [if_neg h, if_neg h]
      rfl
  intro s hsv
  rcases hcase with ⟨hiter, hfin⟩ | ⟨inc, trace, hinc, hloop, hiter, hfin⟩
  · rw [hfin, hc0 s, if_pos hsv]
  · have hedges : ∀ s', ∀ e ∈ (inc s').getD [],
        e.weight = some 0 ∨ ∃ n ∈ data.nodes, n.id = e.target := by
      intro s' e he
      have hmem : e ∈ ((initIncoming data.nodes) s').getD [] ∨ e ∈ data.edges :=
        buildIncomingAux_mem (initIncoming data.nodes) inc data.edges hinc s' e he
      rcases hmem with hmem | hmem
      · rw [initIncoming_lookup] at hmem
        by_cases h : ∃ n ∈ data.nodes, n.id = s'
        · rw [if_pos h] at hmem
          simp at hmem
        · rw [if_neg h] at hmem
          simp at hmem
      · exact Or.inr (htv e hmem)
    have hids : ∀ j ∈ fullKeyIds data, ∃ n ∈ data.nodes, n.id = j := by
      intro j hj
      have hj' := (mem_pyDedup (idsOf data.nodes) j).mp hj
      rw [idsOf] at hj'
      obtain ⟨n, hn, hni⟩ := List.mem_map.mp hj'
      exact ⟨n, hn, hni⟩
    have hstep : ∀ cm cm',
        (∀ s', cm s' = if ∃ n ∈ data.nodes, n.id = s' then some 0 else none) →
        fullStepNodes sq data.lambda_ (fullE data) cm inc (fullKeyIds data) cm = .ok cm' →
        ∀ s', cm' s' = if ∃ n ∈ data.nodes, n.id = s' then some 0 else none :=
      fun cm cm' hcm h' =>
        fullStepNodes_allzero sq data.lambda_ (fullE data) cm inc data.nodes hcm
          (fun s'' e he => hedges s'' e he) (fullKeyIds data) hids cm cm' hcm h'
    have hall := fullLoop_all sq data.lambda_ data.epsilon (fullE data) inc
      (fullKeyIds data)
      (fun m => ∀ s', m s' = if ∃ n ∈ data.nodes, n.id = s' then some 0 else none)
      hstep data.max_iterations.toNat (fullC0 data) [fullC0 data] trace hc0
      (fun m hm => by rw [List.mem_singleton] at hm; exact hm ▸ hc0) hloop
    obtain ⟨ext, hext⟩ := fullLoop_shape sq data.lambda_ data.epsilon (fullE data) inc
      (fullKeyIds data) data.max_iterations.toNat (fullC0 data) [fullC0 data] trace hloop
    have hne : trace ≠ [] := by
      rw [hext]
      simp
    rw [hfin,
      hall (trace.getLastD (fullC0 data)) (getLastD_mem_of_ne_nil trace (fullC0 data) hne) s,
      if_pos hsv]

theorem selZFold_zero (c : ScoreMap) (hc : ∀ s, c s = some 0 ∨ c s = none) :
    ∀ (l : List (String × ℚ)) (z : ℚ), selZFold c z l = z := by
  intro l
  induction l with
  | nil => intro z; rfl
  | cons p rest ih =>
      intro z
      obtain ⟨src, w⟩ := p
      rw [selZFold]
      rcases hc src with h | h
      · rw [h]
        show selZFold c (z + selContribution w 0) rest = z
        rw [show selContribution w 0 = 0 from mul_zero w, add_zero]
        exact ih z
      · rw [h]
        exact ih z

/-- Claim C1, amended: the two propagation endpoints agree only in the
degenerate regime in which both compute all-zero scores.  When the squashing
function fixes 0, every node's evidence list is empty or absent, the target
and every edge endpoint name a node of the graph, and both endpoints return
successfully, every node of the affected set receives the same final score
(both sides compute `some 0`).  Outside this regime the endpoints genuinely
disagree (see the counterexample): the full endpoint ignores the `evidence`
lists entirely (its intrinsic scores are all 0.0), while the selective
endpoint aggregates them, so a single node with nonzero evidence already
breaks the claimed consistency. -/
theorem claim_C1 (sq : ℚ → ℚ) (hsq0 : sq 0 = 0)
    (sreq : NodeCredibilityRequest)
    (hev : ∀ n ∈ sreq.nodes, n.evidence = none ∨ n.evidence = some [])
    (ht : ∃ n ∈ sreq.nodes, n.id = sreq.target_node_id)
    (hsv : ∀ e ∈ sreq.edges, ∃ n ∈ sreq.nodes, n.id = e.source)
    (htv : ∀ e ∈ sreq.edges, ∃ n ∈ sreq.nodes, n.id = e.target)
    (sresp : NodeCredibilityResponse)
    (hs : get_node_credibility sq sreq = .ok sresp)
    (fresp : CredibilityPropagationResponse)
    (hf : get_claim_credibility sq (toFullRequest sreq) = .ok fresp) :
    ∀ id ∈ sresp.affected_nodes, sresp.final_scores id = fresp.final_scores id := by
  intro id hid
  obtain ⟨E, hE, hcase⟩ := get_node_credibility_elim sq sreq sresp hs
  have hz : ∀ n ∈ selAffectedNodes sreq,
      nodeEvidenceScore sreq.evidence_min sreq.evidence_max n = .ok 0 :=
    fun n hn => nodeEvidenceScore_empty _ _ n (hev n (List.mem_of_mem_filter hn))
  have hEs := selEAux_lookup_of_zero sreq.evidence_min sreq.evidence_max
    ScoreMap.empty E (selAffectedNodes sreq) hE hz
  rcases hcase with ⟨hiso, hresp⟩ | ⟨hiso, inc, hinc, hresp⟩
  · obtain ⟨n₀, hf2⟩ : ∃ n₀, (selAffectedNodes sreq).find?
        (fun n => n.id == sreq.target_node_id) = some n₀ := by
      rw [selIsolated] at hiso
      cases hf2 : (selAffectedNodes sreq).find?
          (fun n => n.id == sreq.target_node_id) with
      | none =>
          rw [hf2] at hiso
          exact Bool.noConfusion hiso
      | some n₀ => exact ⟨n₀, rfl⟩
    have hn₀ : n₀ ∈ selAffectedNodes sreq := List.mem_of_find?_eq_some hf2
    have hid₀ : n₀.id = sreq.target_node_id := by
      have hp := List.find?_some hf2
      simpa using hp
    subst hresp
    have hidt : id = sreq.target_node_id := Finset.mem_singleton.mp hid
    subst hidt
    have hEt : E sreq.target_node_id = some 0 := by
      rw [hEs, if_pos ⟨n₀, hn₀, hid₀⟩]
    have hfull := full_allzero sq (toFullRequest sreq) htv fresp hf
      sreq.target_node_id ⟨n₀, List.mem_of_mem_filter hn₀, hid₀⟩
    rw [hfull]
    show (ScoreMap.empty.set sreq.target_node_id ((E sreq.target_node_id).getD 0))
      sreq.target_node_id = some 0
    rw [ScoreMap.set_apply, if_pos rfl, hEt]
    rfl
  · subst hresp
    have hidv : ∃ n ∈ sreq.nodes, n.id = id := by
      rcases get_affected_nodes_mem sreq.target_node_id sreq.nodes sreq.edges id hid
        with h' | ⟨e, he, hesrc⟩
      · rw [h']
        exact ht
      · obtain ⟨n, hn, hni⟩ := hsv e he
        exact ⟨n, hn, by rw [hni, hesrc]⟩
    obtain ⟨n₁, hn₁, hni₁⟩ := hidv
    have hanf : n₁ ∈ selAffectedNodes sreq := by
      refine List.mem_filter.mpr ⟨hn₁, ?_⟩
      rw [hni₁]
      exact decide_eq_true hid
    have hc0 : ∀ s, (initScores (selAffectedNodes sreq) E) s =
        if ∃ n ∈ selAffectedNodes sreq, n.id = s then some 0 else none := by
      intro s
      rw [initScores, initScoresAux_lookup]
      by_cases h' : ∃ n ∈ selAffectedNodes sreq, n.id = s
      · rw [if_pos h', if_pos h', hEs, if_pos h']
        rfl
      · rw [if_neg h', if_neg h']
        rfl
    have hcz : ∀ cmap : ScoreMap,
        (∀ s, cmap s = if ∃ n ∈ selAffectedNodes sreq, n.id = s then some 0 else none) →
        ∀ s, cmap s = some 0 ∨ cmap s = none := by
      intro cmap hcm s
      rw [hcm s]
      by_cases h' : ∃ n ∈ selAffectedNodes sreq, n.id = s
      · rw [if_pos h']
        exact Or.inl rfl
      · rw [if_neg h']
        exact Or.inr rfl
    have hstep : ∀ cmap,
        (∀ s, cmap s = if ∃ n ∈ selAffectedNodes sreq, n.id = s then some 0 else none) →
        ∀ s, (selStep sq sreq.lambda_ E inc (selAffectedNodes sreq) cmap).1 s =
          if ∃ n ∈ selAffectedNodes sreq, n.id = s then some 0 else none := by
      intro cmap hcm s
      rw [selStep, selStepAux_lookup]
      by_cases h' : ∃ n ∈ selAffectedNodes sreq, n.id = s
      · rw [if_pos h', if_pos h']
        have hZ : selNodeZ sreq.lambda_ E cmap inc s = 0 := by
          rw [selNodeZ]
          have hEg : (E s).getD 0 = 0 := by
            rw [hEs, if_pos h']
            rfl
          cases hincs : inc s with
          | none => rw [hEg, mul_zero]
          | some l =>
              rw [hEg, mul_zero]
              exact selZFold_zero cmap (hcz cmap hcm) l 0
        rw [hZ, hsq0]
      · rw [if_neg h', if_neg h']
        rfl
    have hall := selLoop_all sq sreq.lambda_ sreq.epsilon E inc (selAffectedNodes sreq)
      (fun m => ∀ s, m s = if ∃ n ∈ selAffectedNodes sreq, n.id = s then some 0 else none)
      hstep sreq.max_iterations.toNat (initScores (selAffectedNodes sreq) E)
      [initScores (selAffectedNodes sreq) E] hc0
      (fun m hm => by rw [List.mem_singleton] at hm; exact hm ▸ hc0)
    have hfull := full_allzero sq (toFullRequest sreq) htv fresp hf id ⟨n₁, hn₁, hni₁⟩
    rw [hfull]
    show (selLoop sq sreq.lambda_ sreq.epsilon E inc (selAffectedNodes sreq)
        sreq.max_iterations.toNat (initScores (selAffectedNodes sreq) E)
        [initScores (selAffectedNodes sreq) E]).2 id = some 0
    rw [hall.2 id, if_pos ⟨n₁, hanf, hni₁⟩]

/-- Counterexample to claim C1 as stated: a single node C with evidence [3]
and bounds [0, 5], target C.  The selective endpoint returns C's clamped
intrinsic evidence score 3; the full endpoint on the same graph ignores the
evidence entirely and returns 0. -/
theorem claim_C1_counterexample :
    ¬ (∀ (sq : ℚ → ℚ) (sreq : NodeCredibilityRequest)
        (sresp : NodeCredibilityResponse) (fresp : CredibilityPropagationResponse),
        get_node_credibility sq sreq = .ok sresp →
        get_claim_credibility sq (toFullRequest sreq) = .ok fresp →
        ∀ id ∈ sresp.affected_nodes,
          sresp.final_scores id = fresp.final_scores id) := by
  intro h
  have hq3 : nodeEvidenceScore selReqWide.evidence_min selReqWide.evidence_max nodeC3 =
      .ok 3 := by
    show nodeEvidenceScore (some 0) (some 5) nodeC3 = .ok 3
    have hm := nodeEvidenceScore_mean (some 0) (some 5) nodeC3 [3] rfl (by simp)
      0 5 rfl rfl
    rw [hm]
    have h1 : clampQ 3 0 5 = 3 := by
      rw [clampQ, min_eq_left (by norm_num), max_eq_left (by norm_num)]
    rw [List.map_cons, List.map_nil, h1]
    norm_num
  have hE3 : selEAux selReqWide.evidence_min selReqWide.evidence_max ScoreMap.empty
      (selAffectedNodes selReqWide) = .ok (ScoreMap.empty.set "C" 3) := by
    have haff : selAffectedNodes selReqWide = [nodeC3] := rfl
    rw [haff, selEAux_cons, hq3]
    rfl
  have hruns : get_node_credibility sqZero selReqWide =
      .ok ⟨"C", {"C"}, ScoreMap.empty.set "C" 3, [ScoreMap.empty.set "C" 3],
        ScoreMap.empty.set "C" 3⟩ := by
    rw [get_node_credibility, hE3]
    rfl
  have hrunf : get_claim_credibility sqZero (toFullRequest selReqWide) =
      .ok ⟨fullE (toFullRequest selReqWide), [fullC0 (toFullRequest selReqWide)],
        fullC0 (toFullRequest selReqWide)⟩ := rfl
  have hc := h sqZero selReqWide _ _ hruns hrunf "C" (by decide)
  have h30 : (some (3 : ℚ)) = some (0 : ℚ) := hc
  have h30' : (3 : ℚ) = 0 := Option.some.inj h30
  norm_num at h30'

/-- Witness for claim C1 at a concrete degenerate input: single node A with
no evidence, no edges, target A; both endpoints map A to 0. -/
theorem claim_C1_witness :
    sqZero 0 = 0 ∧
    get_node_credibility sqZero selReqA =
      .ok ⟨"A", {"A"}, ScoreMap.empty.set "A" 0, [ScoreMap.empty.set "A" 0],
        ScoreMap.empty.set "A" 0⟩ ∧
    (⟨"A", {"A"}, ScoreMap.empty.set "A" 0, [ScoreMap.empty.set "A" 0],
        ScoreMap.empty.set "A" 0⟩ : NodeCredibilityResponse).final_scores "A" =
      (⟨fullE (toFullRequest selReqA), [fullC0 (toFullRequest selReqA)],
        fullC0 (toFullRequest selReqA)⟩ :
          CredibilityPropagationResponse).final_scores "A" := by
  refine ⟨rfl, rfl, ?_⟩
  exact claim_C1 sqZero rfl selReqA (by decide) (by decide) (by decide) (by decide)
    ⟨"A", {"A"}, ScoreMap.empty.set "A" 0, [ScoreMap.empty.set "A" 0],
      ScoreMap.empty.set "A" 0⟩ rfl
    ⟨fullE (toFullRequest selReqA), [fullC0 (toFullRequest selReqA)],
      fullC0 (toFullRequest selReqA)⟩ rfl "A" (by decide)

end Intelliproof
